import Mathlib

/-!
Verification development for the royalepoker client poker engine
(`src/src/hooks/usePokerGame.ts`).

The TypeScript engine runs on JavaScript numbers (IEEE-754 binary64).
All chip arithmetic stays far below 2^53 and is therefore exact, so the
betting state machine is embedded over `Int`/`Nat` directly.  The seeded
shuffle, however, computes `seed * 1103515245` on values up to 2^31, whose
products exceed 2^53; there the double rounding is semantically relevant
and is modelled explicitly:

* `fl53 n` is the IEEE-754 round-to-nearest-even of an integer `n` to a
  53-bit significand (all doubles appearing in the LCG state updates are
  integers, so a `Nat → Nat` rounding function is a faithful model);
* `flQ x` is the same rounding on an arbitrary positive rational, used for
  the division `seed / 0x7fffffff` and the multiplication by `max` in
  `SeededRandom.nextInt`.
-/

set_option maxHeartbeats 1000000
set_option maxRecDepth 2000

namespace RoyalePoker

/-! ### IEEE-754 double rounding of integers

`fl53 n` rounds the integer `n` to the nearest double (round half to
even).  For `n < 2^53` every integer is exactly representable.  Otherwise
the unit in the last place is `2 ^ (n.log2 - 52)` and `n` is rounded to
the nearest multiple of it.
-/

def fl53 (n : Nat) : Nat :=
  if n < 2 ^ 53 then n
  else if n % 2 ^ (n.log2 - 52) < 2 ^ (n.log2 - 52 - 1) then
    n / 2 ^ (n.log2 - 52) * 2 ^ (n.log2 - 52)
  else if 2 ^ (n.log2 - 52 - 1) < n % 2 ^ (n.log2 - 52) then
    (n / 2 ^ (n.log2 - 52) + 1) * 2 ^ (n.log2 - 52)
  else if n / 2 ^ (n.log2 - 52) % 2 = 0 then
    n / 2 ^ (n.log2 - 52) * 2 ^ (n.log2 - 52)
  else (n / 2 ^ (n.log2 - 52) + 1) * 2 ^ (n.log2 - 52)

theorem fl53_id (n : Nat) (h : n < 2 ^ 53) : fl53 n = n := by
  unfold fl53
  rw [if_pos h]

theorem fl53_cases (n : Nat) (h : ¬ n < 2 ^ 53) :
    fl53 n = n / 2 ^ (n.log2 - 52) * 2 ^ (n.log2 - 52) ∨
    (2 ^ (n.log2 - 52 - 1) ≤ n % 2 ^ (n.log2 - 52) ∧
      fl53 n = (n / 2 ^ (n.log2 - 52) + 1) * 2 ^ (n.log2 - 52)) := by
  unfold fl53
  rw [if_neg h]
  split
  · exact Or.inl rfl
  · rename_i h1
    split
    · rename_i h2
      exact Or.inr ⟨le_of_lt h2, rfl⟩
    · split
      · exact Or.inl rfl
      · exact Or.inr ⟨le_of_not_lt h1, rfl⟩

theorem fl53_near (n : Nat) (h1 : 2 ^ 53 ≤ n) (h2 : n < 2 ^ 54) :
    fl53 n = n ∨ fl53 n = n - 1 ∨ fl53 n = n + 1 := by
  have hn : n ≠ 0 := by positivity
  have h53 : 53 ≤ n.log2 := (Nat.le_log2 hn).2 h1
  have h54 : n.log2 < 54 := (Nat.log2_lt hn).2 h2
  have he : n.log2 - 52 = 1 := by omega
  have hdm := Nat.div_add_mod n 2
  rcases fl53_cases n (by omega) with h | ⟨hhalf, h⟩
  · rw [he] at h; norm_num at h; omega
  · rw [he] at h hhalf; norm_num at h hhalf; omega

theorem fl53_mod4 (n : Nat) (h : 2 ^ 54 ≤ n) : fl53 n % 4 = 0 := by
  have hn : n ≠ 0 := by positivity
  have h54 : 54 ≤ n.log2 := (Nat.le_log2 hn).2 h
  have hdvd : ∀ m : Nat, m * 2 ^ (n.log2 - 52) % 4 = 0 := by
    intro m
    have hsplit : n.log2 - 52 = n.log2 - 54 + 2 := by omega
    rw [hsplit, pow_add, ← Nat.mul_assoc]
    omega
  rcases fl53_cases n (by omega) with h | ⟨_, h⟩ <;> rw [h] <;> exact hdvd _

theorem fl53_ge (n : Nat) (h : 2 ^ 54 ≤ n) : 2 ^ 54 ≤ fl53 n := by
  have hn : n ≠ 0 := by positivity
  have h54 : 54 ≤ n.log2 := (Nat.le_log2 hn).2 h
  have hlow : 2 ^ n.log2 ≤ n := (Nat.le_log2 hn).1 le_rfl
  have hq : 2 ^ 52 ≤ n / 2 ^ (n.log2 - 52) := by
    rw [Nat.le_div_iff_mul_le (Nat.pow_pos (by norm_num)), ← pow_add]
    calc 2 ^ (52 + (n.log2 - 52)) = 2 ^ n.log2 := by congr 1; omega
    _ ≤ n := hlow
  have hbase : 2 ^ 54 ≤ 2 ^ 52 * 2 ^ (n.log2 - 52) := by
    rw [← pow_add]
    exact Nat.pow_le_pow_right (by norm_num) (by omega)
  rcases fl53_cases n (by omega) with h | ⟨_, h⟩ <;> rw [h]
  · calc 2 ^ 54 ≤ 2 ^ 52 * 2 ^ (n.log2 - 52) := hbase
    _ ≤ n / 2 ^ (n.log2 - 52) * 2 ^ (n.log2 - 52) :=
        Nat.mul_le_mul_right _ hq
  · calc 2 ^ 54 ≤ 2 ^ 52 * 2 ^ (n.log2 - 52) := hbase
    _ ≤ n / 2 ^ (n.log2 - 52) * 2 ^ (n.log2 - 52) := Nat.mul_le_mul_right _ hq
    _ ≤ (n / 2 ^ (n.log2 - 52) + 1) * 2 ^ (n.log2 - 52) :=
        Nat.mul_le_mul_right _ (Nat.le_succ _)

/-! ### The seeded LCG of `SeededRandom.next`

`next()` executes `this.seed = (this.seed * 1103515245 + 12345) & 0x7fffffff`
on doubles.  The multiplication and the addition each round once (`fl53`),
and `& 0x7fffffff` takes the low 31 bits of the (integer-valued) result.
-/

def jsStep (s : Nat) : Nat :=
  fl53 (fl53 (s * 1103515245) + 12345) % 2147483648

theorem mod31_shift (x c : Nat) (hc : c < 2147483648)
    (h : (x + c) % 2147483648 = 2147483647) :
    x % 2147483648 = (2147483647 - c) % 2147483648 := by
  have h1 : (x + c) % 2147483648 = (2147483647 - c + c) % 2147483648 := by
    rw [h, Nat.sub_add_cancel (by omega), Nat.mod_eq_of_lt (by omega)]
  exact Nat.ModEq.add_right_cancel' c h1

theorem solveMod (s r : Nat) (h : s * 1103515245 % 2147483648 = r % 2147483648) :
    s % 2147483648 = r * 1857678181 % 2147483648 := by
  have h1 : s * 1103515245 * 1857678181 % 2147483648 =
      r * 1857678181 % 2147483648 :=
    Nat.ModEq.mul_right _ h
  have h2 : s * 1103515245 * 1857678181 % 2147483648 = s % 2147483648 := by
    have e1 : s * 1103515245 * 1857678181 = s * (1103515245 * 1857678181) := by
      ring
    rw [e1, Nat.mul_mod,
      (by norm_num : (1103515245 * 1857678181 : Nat) % 2147483648 = 1),
      Nat.mul_one, Nat.mod_mod_of_dvd _ dvd_rfl]
  omega

theorem mod4_mod31_kill (x : Nat) (h4 : x % 4 = 0)
    (hb : x % 2147483648 = 2147483647) : False := by omega

theorem caseA_kill (s : Nat) (hA : s * 1103515245 + 12345 < 2 ^ 53)
    (hbad : (s * 1103515245 + 12345) % 2147483648 = 2147483647) : False := by
  have h1 := mod31_shift (s * 1103515245) 12345 (by norm_num) hbad
  have h2 := solveMod s (2147483647 - 12345) h1
  norm_num at h2
  clear h1 hbad
  have hs : s ≤ 8162278 := by clear h2; omega
  clear hA
  omega

theorem band_kill (s t : Nat) (hslo : 8162279 ≤ s) (hshi : s ≤ 16324557)
    (ht1 : 12343 ≤ t) (ht2 : t ≤ 12347)
    (hbad2 : (s * 1103515245 + t) % 2147483648 = 2147483647) : False := by
  have h1 := mod31_shift (s * 1103515245) t
    (lt_of_le_of_lt ht2 (by norm_num)) hbad2
  have h2 := solveMod s (2147483647 - t) h1
  clear h1 hbad2
  interval_cases t <;> omega

/-- The crucial reachability fact: under genuine IEEE-754 double semantics
the LCG state can never be exactly `2^31 - 1` (the unique state where
`next()` would return `1.0` and Fisher-Yates would index one past the end).
The proof splits on the magnitude of the product `s * 1103515245`: below
`2^53` the arithmetic is exact and the required residue modulo `2^31`
forces `s = 230538014`, which is too large for this region; in the band up
to `2^54` rounding perturbs the sum by at most 2 and each of the five
candidate residues is again outside the region; above `2^54` every rounded
value is a multiple of 4 while `2^31 - 1` is `3` modulo 4. -/
theorem jsStep_ne_max (s : Nat) : jsStep s ≠ 2147483647 := by
  unfold jsStep
  intro hbad
  by_cases hA : s * 1103515245 + 12345 < 2 ^ 53
  · rw [fl53_id (s * 1103515245) (by omega),
      fl53_id (s * 1103515245 + 12345) (by omega)] at hbad
    exact caseA_kill s hA hbad
  · by_cases hB : s * 1103515245 < 2 ^ 54
    · have hslo : 8162279 ≤ s := by
        by_contra hcon
        have hs : s ≤ 8162278 := by omega
        have : s * 1103515245 ≤ 8162278 * 1103515245 :=
          Nat.mul_le_mul_right _ hs
        omega
      have hshi : s ≤ 16324557 := by
        by_contra hcon
        have hs : 16324558 ≤ s := by omega
        have : 16324558 * 1103515245 ≤ s * 1103515245 :=
          Nat.mul_le_mul_right _ hs
        omega
      have hP1 : fl53 (s * 1103515245) = s * 1103515245 ∨
          fl53 (s * 1103515245) = s * 1103515245 - 1 ∨
          fl53 (s * 1103515245) = s * 1103515245 + 1 := by
        by_cases hc : s * 1103515245 < 2 ^ 53
        · exact Or.inl (fl53_id _ hc)
        · exact fl53_near _ (by omega) hB
      have hflb : s * 1103515245 - 1 ≤ fl53 (s * 1103515245) ∧
          fl53 (s * 1103515245) ≤ s * 1103515245 + 1 := by
        rcases hP1 with h | h | h <;> omega
      have hkill : ∀ t : Nat, 12343 ≤ t → t ≤ 12347 →
          (s * 1103515245 + t) % 2147483648 = 2147483647 → False :=
        fun t ht1 ht2 hbad2 => band_kill s t hslo hshi ht1 ht2 hbad2
      by_cases hv : fl53 (s * 1103515245) + 12345 < 2 ^ 54
      · have hwd : fl53 (fl53 (s * 1103515245) + 12345) =
            fl53 (s * 1103515245) + 12345 ∨
            fl53 (fl53 (s * 1103515245) + 12345) =
              fl53 (s * 1103515245) + 12344 ∨
            fl53 (fl53 (s * 1103515245) + 12345) =
              fl53 (s * 1103515245) + 12346 := by
          by_cases hv53 : fl53 (s * 1103515245) + 12345 < 2 ^ 53
          · exact Or.inl (fl53_id _ hv53)
          · rcases fl53_near _ (by omega) hv with h | h | h
            · exact Or.inl h
            · exact Or.inr (Or.inl (by omega))
            · exact Or.inr (Or.inr (by omega))
        rcases hP1 with h1 | h1 | h1 <;> rcases hwd with h2 | h2 | h2 <;>
          rw [h1] at h2 hbad <;> rw [h2] at hbad
        · exact hkill 12345 (by norm_num) (by norm_num) hbad
        · exact hkill 12344 (by norm_num) (by norm_num) hbad
        · exact hkill 12346 (by norm_num) (by norm_num) hbad
        · have he : s * 1103515245 - 1 + 12345 = s * 1103515245 + 12344 := by
            clear h1 h2 hbad hflb hA hB hv
            omega
          rw [he] at hbad
          exact hkill 12344 (by norm_num) (by norm_num) hbad
        · have he : s * 1103515245 - 1 + 12344 = s * 1103515245 + 12343 := by
            clear h1 h2 hbad hflb hA hB hv
            omega
          rw [he] at hbad
          exact hkill 12343 (by norm_num) (by norm_num) hbad
        · have he : s * 1103515245 - 1 + 12346 = s * 1103515245 + 12345 := by
            clear h1 h2 hbad hflb hA hB hv
            omega
          rw [he] at hbad
          exact hkill 12345 (by norm_num) (by norm_num) hbad
        · have he : s * 1103515245 + 1 + 12345 = s * 1103515245 + 12346 := by
            clear h1 h2 hbad hflb hA hB hv
            omega
          rw [he] at hbad
          exact hkill 12346 (by norm_num) (by norm_num) hbad
        · have he : s * 1103515245 + 1 + 12344 = s * 1103515245 + 12345 := by
            clear h1 h2 hbad hflb hA hB hv
            omega
          rw [he] at hbad
          exact hkill 12345 (by norm_num) (by norm_num) hbad
        · have he : s * 1103515245 + 1 + 12346 = s * 1103515245 + 12347 := by
            clear h1 h2 hbad hflb hA hB hv
            omega
          rw [he] at hbad
          exact hkill 12347 (by norm_num) (by norm_num) hbad
      · exact mod4_mod31_kill _ (fl53_mod4 _ (le_of_not_lt hv)) hbad
    · have hge := fl53_ge _ (le_of_not_lt hB)
      exact mod4_mod31_kill _
        (fl53_mod4 _ (le_trans hge (Nat.le_add_right _ _))) hbad

theorem jsStep_lt (s : Nat) : jsStep s < 2147483648 :=
  Nat.mod_lt _ (by norm_num)

theorem jsStep_le (s : Nat) : jsStep s ≤ 2147483646 := by
  have h1 := jsStep_lt s
  have h2 := jsStep_ne_max s
  omega

/-! ### Double rounding on positive rationals

`SeededRandom.next` finishes with the double division
`this.seed / 0x7fffffff`, and `nextInt` multiplies that value by `max`;
both operations round once more.  `flQ` is IEEE-754
round-to-nearest-even on an arbitrary positive rational (overflow and
subnormals cannot occur in the ranges used here). -/

def ulpE (x : ℚ) : ℤ := Int.log 2 x - 52

def flQm (x : ℚ) : ℤ := ⌊x / (2 : ℚ) ^ ulpE x⌋

def flQ (x : ℚ) : ℚ :=
  if 0 < x then
    if x - (flQm x : ℚ) * (2 : ℚ) ^ ulpE x < (2 : ℚ) ^ ulpE x / 2 then
      (flQm x : ℚ) * (2 : ℚ) ^ ulpE x
    else if (2 : ℚ) ^ ulpE x / 2 < x - (flQm x : ℚ) * (2 : ℚ) ^ ulpE x then
      ((flQm x : ℚ) + 1) * (2 : ℚ) ^ ulpE x
    else if flQm x % 2 = 0 then (flQm x : ℚ) * (2 : ℚ) ^ ulpE x
    else ((flQm x : ℚ) + 1) * (2 : ℚ) ^ ulpE x
  else 0

theorem flQ_of_nonpos {x : ℚ} (h : ¬ 0 < x) : flQ x = 0 := by
  simp [flQ, h]

theorem flQ_nonneg (x : ℚ) : 0 ≤ flQ x := by
  by_cases hx : 0 < x
  · have hu : (0 : ℚ) < (2 : ℚ) ^ ulpE x := zpow_pos (by norm_num) _
    have hm : (0 : ℤ) ≤ flQm x :=
      Int.floor_nonneg.2 (le_of_lt (div_pos hx hu))
    have hm1 : (0 : ℚ) ≤ (flQm x : ℚ) := by exact_mod_cast hm
    have hm2 : (0 : ℚ) ≤ (flQm x : ℚ) + 1 := by linarith
    unfold flQ
    rw [if_pos hx]
    split
    · positivity
    · split
      · positivity
      · split
        · positivity
        · positivity
  · rw [flQ_of_nonpos hx]

theorem flQ_le_half_ulp {x : ℚ} (hx : 0 < x) :
    flQ x ≤ x + (2 : ℚ) ^ ulpE x / 2 := by
  have hu : (0 : ℚ) < (2 : ℚ) ^ ulpE x := zpow_pos (by norm_num) _
  have hfl : (flQm x : ℚ) * (2 : ℚ) ^ ulpE x ≤ x := by
    have h1 : (flQm x : ℚ) ≤ x / (2 : ℚ) ^ ulpE x := Int.floor_le _
    calc (flQm x : ℚ) * (2 : ℚ) ^ ulpE x
        ≤ x / (2 : ℚ) ^ ulpE x * (2 : ℚ) ^ ulpE x :=
          mul_le_mul_of_nonneg_right h1 (le_of_lt hu)
    _ = x := div_mul_cancel₀ x (ne_of_gt hu)
  unfold flQ
  rw [if_pos hx]
  split
  · linarith
  · rename_i hlt
    push_neg at hlt
    split
    · have : ((flQm x : ℚ) + 1) * (2 : ℚ) ^ ulpE x =
          (flQm x : ℚ) * (2 : ℚ) ^ ulpE x + (2 : ℚ) ^ ulpE x := by ring
      linarith
    · split
      · linarith
      · have : ((flQm x : ℚ) + 1) * (2 : ℚ) ^ ulpE x =
            (flQm x : ℚ) * (2 : ℚ) ^ ulpE x + (2 : ℚ) ^ ulpE x := by ring
        linarith

theorem flQ_rel {x : ℚ} (hx : 0 < x) :
    flQ x ≤ x * (2 ^ 53 + 1) / 2 ^ 53 := by
  have hlog : (2 : ℚ) ^ Int.log 2 x ≤ x :=
    Int.zpow_log_le_self (by norm_num) hx
  have hsplit : (2 : ℚ) ^ ulpE x = (2 : ℚ) ^ Int.log 2 x * (2 : ℚ) ^ (-52 : ℤ) := by
    rw [← zpow_add₀ (by norm_num : (2 : ℚ) ≠ 0)]
    unfold ulpE
    congr 1
  have hup : (2 : ℚ) ^ ulpE x ≤ x * (2 : ℚ) ^ (-52 : ℤ) := by
    rw [hsplit]
    exact mul_le_mul_of_nonneg_right hlog (le_of_lt (zpow_pos (by norm_num) _))
  have h1 := flQ_le_half_ulp hx
  have hz : (2 : ℚ) ^ (-52 : ℤ) = 1 / 2 ^ 52 := by
    rw [zpow_neg]
    norm_num
  rw [hz] at hup
  have : flQ x ≤ x + x * (1 / 2 ^ 52) / 2 := by linarith
  calc flQ x ≤ x + x * (1 / 2 ^ 52) / 2 := this
  _ = x * (2 ^ 53 + 1) / 2 ^ 53 := by ring

/-! ### The values returned by `next()` and `nextInt()` -/

def jsNextQ (s : Nat) : ℚ := flQ ((jsStep s : ℚ) / 2147483647)

def jsNextIntIdx (s maxv : Nat) : ℤ := ⌊flQ (jsNextQ s * maxv)⌋

theorem jsNextQ_le (s : Nat) :
    jsNextQ s ≤ 2147483646 * (2 ^ 53 + 1) / (2147483647 * 2 ^ 53) := by
  unfold jsNextQ
  rcases Nat.eq_zero_or_pos (jsStep s) with h0 | hpos
  · rw [h0]
    norm_num [flQ_of_nonpos]
  · have hx : (0 : ℚ) < (jsStep s : ℚ) / 2147483647 := by
      apply div_pos _ (by norm_num)
      exact_mod_cast hpos
    have h1 := flQ_rel hx
    have h2 : (jsStep s : ℚ) ≤ 2147483646 := by
      exact_mod_cast jsStep_le s
    have h3 : (jsStep s : ℚ) / 2147483647 ≤ 2147483646 / 2147483647 := by
      apply div_le_div_of_nonneg_right h2 (by norm_num)
    calc flQ ((jsStep s : ℚ) / 2147483647)
        ≤ (jsStep s : ℚ) / 2147483647 * (2 ^ 53 + 1) / 2 ^ 53 := h1
    _ ≤ 2147483646 / 2147483647 * (2 ^ 53 + 1) / 2 ^ 53 := by
        apply div_le_div_of_nonneg_right _ (by norm_num)
        apply mul_le_mul_of_nonneg_right h3 (by norm_num)
    _ = 2147483646 * (2 ^ 53 + 1) / (2147483647 * 2 ^ 53) := by ring

theorem jsNextQ_nonneg (s : Nat) : 0 ≤ jsNextQ s := flQ_nonneg _

theorem jsNextQ_lt_one (s : Nat) : jsNextQ s < 1 := by
  have h := jsNextQ_le s
  have : (2147483646 * (2 ^ 53 + 1) / (2147483647 * 2 ^ 53) : ℚ) < 1 := by
    norm_num
  linarith

theorem jsNextIntIdx_nonneg (s maxv : Nat) : 0 ≤ jsNextIntIdx s maxv :=
  Int.floor_nonneg.2 (flQ_nonneg _)

theorem jsNextIntIdx_lt (s maxv : Nat) (hm : 1 ≤ maxv) :
    jsNextIntIdx s maxv ≤ maxv - 1 := by
  have hd0 := jsNextQ_nonneg s
  have hdB := jsNextQ_le s
  have hmQ : (1 : ℚ) ≤ (maxv : ℚ) := by exact_mod_cast hm
  have hy : flQ (jsNextQ s * maxv) < (maxv : ℚ) := by
    rcases eq_or_lt_of_le hd0 with h0 | hpos
    · rw [← h0]
      norm_num [flQ_of_nonpos]
      linarith
    · have hyx : (0 : ℚ) < jsNextQ s * maxv := by positivity
      have h1 := flQ_rel hyx
      have h2 : jsNextQ s * (maxv : ℚ) ≤
          2147483646 * (2 ^ 53 + 1) / (2147483647 * 2 ^ 53) * maxv :=
        mul_le_mul_of_nonneg_right hdB (by positivity)
      have h3 : jsNextQ s * (maxv : ℚ) * (2 ^ 53 + 1) / 2 ^ 53 ≤
          2147483646 * (2 ^ 53 + 1) / (2147483647 * 2 ^ 53) * maxv *
            (2 ^ 53 + 1) / 2 ^ 53 := by
        apply div_le_div_of_nonneg_right _ (by norm_num)
        apply mul_le_mul_of_nonneg_right h2 (by norm_num)
      have h4 : (2147483646 * (2 ^ 53 + 1) / (2147483647 * 2 ^ 53) * maxv *
          (2 ^ 53 + 1) / 2 ^ 53 : ℚ) < maxv := by
        have hc : (2147483646 * (2 ^ 53 + 1) * (2 ^ 53 + 1) /
            (2147483647 * 2 ^ 53 * 2 ^ 53) : ℚ) < 1 := by
          rw [div_lt_one (by norm_num)]
          norm_num
        have he : (2147483646 * (2 ^ 53 + 1) / (2147483647 * 2 ^ 53) * maxv *
            (2 ^ 53 + 1) / 2 ^ 53 : ℚ) =
            2147483646 * (2 ^ 53 + 1) * (2 ^ 53 + 1) /
              (2147483647 * 2 ^ 53 * 2 ^ 53) * maxv := by ring
        rw [he]
        calc (2147483646 * (2 ^ 53 + 1) * (2 ^ 53 + 1) /
            (2147483647 * 2 ^ 53 * 2 ^ 53) : ℚ) * maxv < 1 * maxv := by
              apply mul_lt_mul_of_pos_right hc (by linarith)
        _ = maxv := one_mul _
      linarith
  have hfloor : ⌊flQ (jsNextQ s * maxv)⌋ < (maxv : ℤ) := by
    rw [Int.floor_lt]
    exact_mod_cast hy
  unfold jsNextIntIdx
  omega

attribute [irreducible] fl53 flQ jsStep jsNextQ jsNextIntIdx

/-! ### Cards, the deck, and the seeded shuffle -/

structure Card where
  rank : String
  suit : String
  value : Nat
deriving DecidableEq, Repr

def suitNames : List String := ["hearts", "diamonds", "clubs", "spades"]

def rankNames : List String :=
  ["2", "3", "4", "5", "6", "7", "8", "9", "10", "J", "Q", "K", "A"]

/-- `createDeck` builds the 52-card deck in the source's nesting order:
for each suit, the thirteen ranks with `value = i + 2`. -/
def createDeck : List Card :=
  (suitNames.map fun s =>
    (List.range 13).map fun i => Card.mk (rankNames.getD i "") s (i + 2)).flatten

/-- JavaScript array read `deck[j]`: out-of-range reads yield `undefined`,
modelled as `none`.  Slots are themselves `Option Card` because a JS array
slot can hold `undefined` after an out-of-range write. -/
def jsGetO (l : List (Option Card)) (j : Nat) : Option Card := l.getD j none

/-- JavaScript array write `deck[j] = v`: in range it updates; at or past
the end it extends the array, with holes reading as `undefined`. -/
def jsSetO (l : List (Option Card)) (j : Nat) (v : Option Card) :
    List (Option Card) :=
  if j < l.length then l.set j v
  else l ++ List.replicate (j - l.length) none ++ [v]

/-- The destructuring swap `[deck[i], deck[j]] = [deck[j], deck[i]]`. -/
def jsSwap (l : List (Option Card)) (i j : Nat) : List (Option Card) :=
  jsSetO (jsSetO l i (jsGetO l j)) j (jsGetO l i)

/-- The Fisher-Yates loop of `shuffleDeck`: `i` runs from 51 down to 1,
`j = rng.nextInt(i + 1)`, and the LCG state is threaded explicitly (the
state after the draw at index `i` is `jsStep s`). -/
def fyLoop : Nat → Nat → List (Option Card) → List (Option Card)
  | _, 0, deck => deck
  | s, i + 1, deck =>
      fyLoop (jsStep s) i
        (jsSwap deck (i + 1) (jsNextIntIdx s (i + 2)).toNat)

theorem fyLoop_succ (s i : Nat) (deck : List (Option Card)) :
    fyLoop s (i + 1) deck =
      fyLoop (jsStep s) i (jsSwap deck (i + 1) (jsNextIntIdx s (i + 2)).toNat) := by
  simp only [fyLoop]

/-- `shuffleDeck(seed)`: fresh 52-card deck, then seeded Fisher-Yates. -/
def shuffleDeck (seed : Nat) : List (Option Card) :=
  fyLoop seed ((createDeck.map some).length - 1) (createDeck.map some)

theorem set_coe_add {α : Type} (d : α) :
    ∀ (l : List α) (i : Nat) (b : α), i < l.length →
      ((l.set i b : List α) : Multiset α) + {l.getD i d} =
        (l : Multiset α) + {b} := by
  intro l
  induction l with
  | nil => intro i b h; simp at h
  | cons a t ih =>
    intro i b h
    cases i with
    | zero =>
      show ((b :: t : List α) : Multiset α) + {a} =
        ((a :: t : List α) : Multiset α) + {b}
      rw [← Multiset.cons_coe, ← Multiset.cons_coe, ← Multiset.singleton_add,
        ← Multiset.singleton_add]
      rw [add_comm ({b} : Multiset α) _, add_comm ({a} : Multiset α) _]
      rw [add_assoc, add_assoc, add_comm ({a} : Multiset α) {b}]
    | succ i =>
      have h2 : i < t.length := by simpa using h
      show ((a :: t.set i b : List α) : Multiset α) + {t.getD i d} =
        ((a :: t : List α) : Multiset α) + {b}
      rw [← Multiset.cons_coe, ← Multiset.cons_coe, ← Multiset.singleton_add,
        ← Multiset.singleton_add, add_assoc, add_assoc, ih i b h2]

theorem getD_set_self {α : Type} (d : α) (l : List α) (i : Nat) (v : α)
    (h : i < l.length) : (l.set i v).getD i d = v := by
  rw [List.getD_eq_getElem?_getD, List.getElem?_set_self h]
  rfl

theorem getD_set_ne {α : Type} (d : α) (l : List α) (i j : Nat) (v : α)
    (h : i ≠ j) : (l.set i v).getD j d = l.getD j d := by
  rw [List.getD_eq_getElem?_getD, List.getElem?_set_ne h,
    ← List.getD_eq_getElem?_getD]

theorem jsSwap_perm (l : List (Option Card)) (i j : Nat)
    (hi : i < l.length) (hj : j < l.length) : (jsSwap l i j).Perm l := by
  have hlen : (l.set i (jsGetO l j)).length = l.length := by simp
  have hj2 : j < (l.set i (jsGetO l j)).length := by rw [hlen]; exact hj
  unfold jsSwap jsSetO
  rw [if_pos hi, if_pos hj2]
  rw [← Multiset.coe_eq_coe]
  have h1 := set_coe_add none l i (jsGetO l j) hi
  have h2 := set_coe_add none (l.set i (jsGetO l j)) j (jsGetO l i) hj2
  have hgd : (l.set i (jsGetO l j)).getD j none = jsGetO l j := by
    by_cases hij : i = j
    · subst hij; exact getD_set_self none l i _ hi
    · rw [getD_set_ne none l i j _ hij]; rfl
  rw [hgd] at h2
  have h3 : ((l.set i (jsGetO l j)).set j (jsGetO l i) : Multiset (Option Card))
      + {jsGetO l j} = (l : Multiset (Option Card)) + {jsGetO l j} := by
    rw [h2]
    have hgi : jsGetO l i = l.getD i none := rfl
    rw [hgi]
    exact h1
  exact add_right_cancel h3

theorem jsSwap_length (l : List (Option Card)) (i j : Nat)
    (hi : i < l.length) (hj : j < l.length) :
    (jsSwap l i j).length = l.length :=
  (jsSwap_perm l i j hi hj).length_eq

theorem fyLoop_perm :
    ∀ (n : Nat) (s : Nat) (deck : List (Option Card)), n < deck.length →
      (fyLoop s n deck).Perm deck := by
  intro n
  induction n with
  | zero => intro s deck _; exact List.Perm.refl _
  | succ n ih =>
    intro s deck h
    have hidx : (jsNextIntIdx s (n + 2)).toNat ≤ n + 1 := by
      have h1 := jsNextIntIdx_lt s (n + 2) (by omega)
      have h2 := jsNextIntIdx_nonneg s (n + 2)
      omega
    have hj : (jsNextIntIdx s (n + 2)).toNat < deck.length := by omega
    have hswap := jsSwap_perm deck (n + 1) (jsNextIntIdx s (n + 2)).toNat h hj
    have hlen := jsSwap_length deck (n + 1) (jsNextIntIdx s (n + 2)).toNat h hj
    rw [fyLoop_succ]
    have hrec := ih (jsStep s)
      (jsSwap deck (n + 1) (jsNextIntIdx s (n + 2)).toNat)
      (by rw [hlen]; omega)
    exact hrec.trans hswap

theorem shuffleDeck_perm (seed : Nat) :
    (shuffleDeck seed).Perm (createDeck.map some) := by
  have hlen : (createDeck.map some).length = 52 := by rfl
  unfold shuffleDeck
  exact fyLoop_perm _ seed _ (by rw [hlen]; omega)

theorem shuffleDeck_length (seed : Nat) : (shuffleDeck seed).length = 52 :=
  (shuffleDeck_perm seed).length_eq.trans rfl

theorem shuffleDeck_all_some (seed : Nat) :
    ∀ oc ∈ shuffleDeck seed, oc.isSome = true := by
  intro oc hm
  have hm2 : oc ∈ createDeck.map some := ((shuffleDeck_perm seed).mem_iff).1 hm
  rcases List.mem_map.1 hm2 with ⟨c, _, hc⟩
  rw [← hc]
  rfl

theorem shuffleDeck_getD_isSome (seed : Nat) (j : Nat) (hj : j < 52) :
    (jsGetO (shuffleDeck seed) j).isSome = true := by
  apply shuffleDeck_all_some seed
  unfold jsGetO
  rw [List.getD_eq_getElem?_getD]
  have hj2 : j < (shuffleDeck seed).length := by
    rw [shuffleDeck_length]; exact hj
  rw [List.getElem?_eq_getElem hj2]
  exact List.getElem_mem hj2

/-- C6: `shuffleDeck` is a pure deterministic function of the seed: the
same seed always produces the same ordered result, and for every seed
(the faithful IEEE-754 model of the LCG never draws an out-of-range
index) the result is a permutation of the full 52-card deck, each
rank-suit combination appearing exactly once. -/
theorem shuffle_deterministic_permutation (seed : Nat) :
    shuffleDeck seed = shuffleDeck seed ∧
    (shuffleDeck seed).Perm (createDeck.map some) ∧
    createDeck.length = 52 :=
  ⟨rfl, shuffleDeck_perm seed, rfl⟩

/-- C9: for every LCG state `s` reachable during a shuffle, the value
returned by `next()` (namely `flQ (jsStep s / 0x7fffffff)`) lies in
`[0, 1)`, and `nextInt(i + 1)` returns an index `j` with `0 ≤ j ≤ i`, so
every Fisher-Yates deck access stays inside the 52-card array.  The
quantification over all `s : Nat` covers every reachable state. -/
theorem lcg_next_in_range (s i : Nat) :
    0 ≤ jsNextQ s ∧ jsNextQ s < 1 ∧
    0 ≤ jsNextIntIdx s (i + 1) ∧ jsNextIntIdx s (i + 1) ≤ (i : ℤ) := by
  refine ⟨jsNextQ_nonneg s, jsNextQ_lt_one s, jsNextIntIdx_nonneg s _, ?_⟩
  have h := jsNextIntIdx_lt s (i + 1) (by omega)
  have hc : ((i + 1 : Nat) : ℤ) = (i : ℤ) + 1 := by push_cast; ring
  omega

/-! ### Hand evaluation (`evaluate5Cards`, `evaluateBestHand`, `compareHands`) -/

/-- `getCardValue`: rank string to 2..14 (Ace high), unknown ranks 0. -/
def getCardValue (rank : String) : Nat :=
  if rank = "2" then 2 else if rank = "3" then 3 else if rank = "4" then 4
  else if rank = "5" then 5 else if rank = "6" then 6 else if rank = "7" then 7
  else if rank = "8" then 8 else if rank = "9" then 9
  else if rank = "10" then 10 else if rank = "J" then 11
  else if rank = "Q" then 12 else if rank = "K" then 13
  else if rank = "A" then 14 else 0

def insertDesc (a : Nat) : List Nat → List Nat
  | [] => [a]
  | b :: t => if b < a then a :: b :: t else b :: insertDesc a t

/-- Numeric descending sort, the effect of `.sort((a, b) => b - a)`. -/
def sortDesc (l : List Nat) : List Nat := l.foldr insertDesc []

/-- First-occurrence deduplication, the effect of `[...new Set(values)]`. -/
def uniqFirst (l : List Nat) : List Nat :=
  l.foldl (fun acc a => if a ∈ acc then acc else acc ++ [a]) []

def insertPairDesc (a : Nat × Nat) : List (Nat × Nat) → List (Nat × Nat)
  | [] => [a]
  | b :: t =>
      if b.2 < a.2 ∨ (b.2 = a.2 ∧ b.1 < a.1) then a :: b :: t
      else b :: insertPairDesc a t

/-- The `(value, count)` pairs of `Object.entries(counts)` sorted by the
comparator `b[1] - a[1] || Number(b[0]) - Number(a[0])` (count descending,
ties by value descending; the order is total since values are distinct). -/
def countValues (values : List Nat) : List (Nat × Nat) :=
  ((uniqFirst values).map fun v => (v, values.count v)).foldr insertPairDesc []

structure HandEval where
  rank : Nat
  highCards : List Nat
deriving DecidableEq, Repr

/-- `evaluate5Cards` from the source, line by line. -/
def evaluate5Cards (cards : List Card) : HandEval :=
  let values := sortDesc (cards.map fun c => getCardValue c.rank)
  let suits := cards.map fun c => c.suit
  let isFlush := suits.all fun s => s == suits.headD ""
  let uniqueValues := sortDesc (uniqFirst values)
  let isRun := uniqueValues.length == 5 &&
    uniqueValues.headD 0 - uniqueValues.getD 4 0 == 4
  let isWheel := uniqueValues.length == 5 && uniqueValues.headD 0 == 14 &&
    uniqueValues.getD 1 0 == 5 && uniqueValues.getD 4 0 == 2
  let isStraight := isRun || isWheel
  let straightHigh :=
    if isWheel then 5 else if isRun then uniqueValues.headD 0 else 0
  let cv := countValues values
  let c0 := cv.headD (0, 0)
  let c1 := cv.getD 1 (0, 0)
  if isStraight && isFlush then
    if straightHigh == 14 then ⟨10, [14]⟩ else ⟨9, [straightHigh]⟩
  else if c0.2 == 4 then ⟨8, [c0.1, c1.1]⟩
  else if c0.2 == 3 && c1.2 == 2 then ⟨7, [c0.1, c1.1]⟩
  else if isFlush then ⟨6, values⟩
  else if isStraight then ⟨5, [straightHigh]⟩
  else if c0.2 == 3 then ⟨4, c0.1 :: values.filter fun v => v != c0.1⟩
  else if c0.2 == 2 && c1.2 == 2 then
    let pr := sortDesc [c0.1, c1.1]
    let p0 := pr.headD 0
    let p1 := pr.getD 1 0
    let kicker := (values.find? fun v => v != p0 && v != p1).getD 0
    ⟨3, [p0, p1, kicker]⟩
  else if c0.2 == 2 then ⟨2, c0.1 :: values.filter fun v => v != c0.1⟩
  else ⟨1, values⟩

def getHandRankName (rank : Nat) : String :=
  if rank = 1 then "High Card" else if rank = 2 then "One Pair"
  else if rank = 3 then "Two Pair" else if rank = 4 then "Three of a Kind"
  else if rank = 5 then "Straight" else if rank = 6 then "Flush"
  else if rank = 7 then "Full House" else if rank = 8 then "Four of a Kind"
  else if rank = 9 then "Straight Flush" else if rank = 10 then "Royal Flush"
  else "Unknown"

/-- `getCombinations`, enumerating 5-card subsets in the source's order
(combinations containing the first card first). -/
def combos : Nat → List Card → List (List Card)
  | 0, _ => [[]]
  | _ + 1, [] => []
  | k + 1, c :: rest => ((combos k rest).map fun l => c :: l) ++ combos (k + 1) rest

/-- The inner tie-break loop of `evaluateBestHand`: walk `cand`'s kickers
(up to `cand`'s length), reading missing entries of `best` as 0
(`bestHand.highCards[i] || 0`); the first strict difference decides. -/
def jsKickerBeats : List Nat → List Nat → Bool
  | [], _ => false
  | h :: t, bs =>
      if bs.headD 0 < h then true
      else if h < bs.headD 0 then false
      else jsKickerBeats t bs.tail

def updateBest (best cand : HandEval) : HandEval :=
  if best.rank < cand.rank then cand
  else if cand.rank == best.rank && jsKickerBeats cand.highCards best.highCards
    then cand
  else best

/-- `evaluateBestHand`: best 5-card hand out of hole plus community cards,
starting from the sentinel `{rank := 0, highCards := [0]}`. -/
def evaluateBestHand (holeCards communityCards : List Card) : HandEval :=
  (combos 5 (holeCards ++ communityCards)).foldl
    (fun best c => updateBest best (evaluate5Cards c)) ⟨0, [0]⟩

/-- The element-wise kicker comparison of `compareHands` (missing entries
read as 0): 1 if the first list is larger at the first difference, -1 if
smaller, 0 if the lists are equal up to trailing zeros. -/
def cmpTailRight : List Nat → Int
  | [] => 0
  | b :: t => if b = 0 then cmpTailRight t else -1

def cmpTailLeft : List Nat → Int
  | [] => 0
  | a :: t => if a = 0 then cmpTailLeft t else 1

def cmpKickers : List Nat → List Nat → Int
  | [], l2 => cmpTailRight l2
  | a :: t, [] => if a = 0 then cmpTailLeft t else 1
  | a :: t, b :: u =>
      if a = b then cmpKickers t u else if b < a then 1 else -1

/-- `compareHands`: 1 if the first hand wins, -1 if the second, 0 on tie. -/
def compareHands (h1 h2 : HandEval) : Int :=
  if h1.rank ≠ h2.rank then (if h2.rank < h1.rank then 1 else -1)
  else cmpKickers h1.highCards h2.highCards

/-- C7: the evaluator correctness table from the specification.
A-K-Q-J-10 suited is a Royal Flush (category 10); A-A-A-K-K is a Full
House with kickers `[Ace, King]`; the mixed-suit wheel A-2-3-4-5 is a
Straight with single kicker 5; and of two one-pair hands 7-7-2-9-K and
7-7-2-9-A, the Ace-kicker hand compares strictly greater. -/
theorem evaluator_table :
    evaluate5Cards [⟨"A", "spades", 14⟩, ⟨"K", "spades", 13⟩,
      ⟨"Q", "spades", 12⟩, ⟨"J", "spades", 11⟩, ⟨"10", "spades", 10⟩] =
      ⟨10, [14]⟩ ∧
    evaluate5Cards [⟨"A", "spades", 14⟩, ⟨"A", "hearts", 14⟩,
      ⟨"A", "diamonds", 14⟩, ⟨"K", "spades", 13⟩, ⟨"K", "hearts", 13⟩] =
      ⟨7, [14, 13]⟩ ∧
    evaluate5Cards [⟨"A", "spades", 14⟩, ⟨"2", "hearts", 2⟩,
      ⟨"3", "diamonds", 3⟩, ⟨"4", "spades", 4⟩, ⟨"5", "hearts", 5⟩] =
      ⟨5, [5]⟩ ∧
    compareHands
      (evaluate5Cards [⟨"7", "clubs", 7⟩, ⟨"7", "diamonds", 7⟩,
        ⟨"2", "spades", 2⟩, ⟨"9", "hearts", 9⟩, ⟨"A", "diamonds", 14⟩])
      (evaluate5Cards [⟨"7", "clubs", 7⟩, ⟨"7", "diamonds", 7⟩,
        ⟨"2", "spades", 2⟩, ⟨"9", "hearts", 9⟩, ⟨"K", "diamonds", 13⟩]) =
      1 := by
  refine ⟨?_, ?_, ?_, ?_⟩ <;> rfl

/-! ### Game state (`PokerGameState` and friends) -/

structure PlayerInfo where
  address : String
  name : String
  chips : Int
  status : String
  currentBet : Int
deriving DecidableEq, Repr

instance : Inhabited PlayerInfo := ⟨⟨"", "", 0, "", 0⟩⟩

structure DealtCards where
  playerCards : List (List (Option Card))
  communityCards : List (Option Card)
deriving DecidableEq, Repr

structure WinnerInfo where
  name : String
  amount : Int
  reason : String
  handRank : Option String
deriving DecidableEq, Repr

structure ShowdownEntry where
  playerName : String
  cards : List (Option Card)
  handRank : String
deriving DecidableEq, Repr

structure GameState where
  tableId : String
  players : List PlayerInfo
  pot : Int
  communityCards : List (Option Card)
  phase : String
  currentBet : Int
  dealerPosition : Nat
  currentPlayerIndex : Nat
  playerCount : Nat
  handNumber : Nat
  handSeed : Nat
  dealtCards : Option DealtCards
  winner : Option WinnerInfo
  showdownCards : Option (List ShowdownEntry)
deriving DecidableEq, Repr

instance : Inhabited HandEval := ⟨⟨0, [0]⟩⟩

/-- `getDefaultState` of the hook. -/
def initialState (tableId : String) : GameState :=
  ⟨tableId, [], 0, [], "Waiting", 0, 0, 0, 0, 0, 0, none, none, none⟩

/-! ### Seeding (`hashString`, `generateHandSeed`) -/

/-- JS `ToInt32` on an exact integer value. -/
def jsToInt32 (x : Int) : Int := (x + 2147483648) % 4294967296 - 2147483648

/-- One iteration of `hashString`: `hash = (hash << 5) - hash + char`
followed by `hash = hash & hash` (a `ToInt32`).  The shift operates on the
`ToInt32` of `hash` and wraps; the sum is exact in doubles. -/
def hashStep (h : Int) (c : Nat) : Int :=
  jsToInt32 (jsToInt32 (jsToInt32 h * 32) - h + c)

def hashString (str : String) : Nat :=
  (str.data.foldl (fun h ch => hashStep h ch.toNat) 0).natAbs

def insertStr (a : String) : List String → List String
  | [] => [a]
  | b :: t => if a < b then a :: b :: t else b :: insertStr a t

/-- Lexicographic sort of the player addresses (JS default `sort()`). -/
def sortStr (l : List String) : List String := l.foldr insertStr []

def generateHandSeed (tableId : String) (handNumber : Nat)
    (playerAddresses : List String) : Nat :=
  hashString (tableId ++ ":" ++ toString handNumber ++ ":" ++
    String.intercalate "," (sortStr playerAddresses))

/-- `dealCards`: two cards per player (player `p` takes deck slots `2p`,
`2p+1`), then burn-flop(3)-burn-turn-burn-river; the five community cards
sit at offsets `2n+1..2n+3`, `2n+5`, `2n+7`. -/
def dealCards (deck : List (Option Card)) (playerCount : Nat) : DealtCards :=
  { playerCards := (List.range playerCount).map fun p =>
      [jsGetO deck (2 * p), jsGetO deck (2 * p + 1)],
    communityCards :=
      [jsGetO deck (2 * playerCount + 1), jsGetO deck (2 * playerCount + 2),
       jsGetO deck (2 * playerCount + 3), jsGetO deck (2 * playerCount + 5),
       jsGetO deck (2 * playerCount + 7)] }

/-! ### Joining and starting a hand -/

/-- The pure state change of `joinTable`: an existing name or a full table
leaves the state unchanged; otherwise the player is appended with status
`Active`, zero bet, and the (positive) chip amount the hybrid
Arena/localStorage/bonus lookup produced. -/
def joinApply (st : GameState) (playerName addr : String) (chips : Int) :
    GameState :=
  if st.players.any fun p => p.name == playerName then st
  else if 4 ≤ st.players.length then st
  else
    { st with
      players := st.players ++ [⟨addr, playerName, chips, "Active", 0⟩],
      playerCount := st.players.length + 1 }

/-- `startGame`: requires at least two players (otherwise an error is set
and the state is unchanged); posts blinds 10/20, rotates the dealer,
shuffles and deals from the hand seed, and enters PreFlop with no
community cards.  Heads-up the dealer is the small blind and acts first. -/
def startGameFn (st : GameState) : GameState :=
  if st.players.length < 2 then st
  else
    let newHandNumber := st.handNumber + 1
    let handSeed := generateHandSeed st.tableId newHandNumber
      (st.players.map fun p => p.address)
    let dealt := dealCards (shuffleDeck handSeed) st.players.length
    let numPlayers := st.players.length
    let newDealerPosition := (st.dealerPosition + 1) % numPlayers
    let smallBlindPos := if numPlayers = 2 then newDealerPosition
      else (newDealerPosition + 1) % numPlayers
    let bigBlindPos := if numPlayers = 2 then (newDealerPosition + 1) % numPlayers
      else (newDealerPosition + 2) % numPlayers
    let firstToAct := if numPlayers = 2 then smallBlindPos
      else (bigBlindPos + 1) % numPlayers
    { st with
      phase := "PreFlop",
      pot := 10 + 20,
      currentBet := 20,
      dealerPosition := newDealerPosition,
      currentPlayerIndex := firstToAct,
      communityCards := [],
      handNumber := newHandNumber,
      handSeed := handSeed,
      dealtCards := some dealt,
      players := st.players.enum.map fun ip =>
        if ip.1 = smallBlindPos then
          { ip.2 with
            chips := ip.2.chips - 10,
            currentBet := 10,
            status := "Active" }
        else if ip.1 = bigBlindPos then
          { ip.2 with
            chips := ip.2.chips - 20,
            currentBet := 20,
            status := "Active" }
        else { ip.2 with currentBet := 0, status := "Active" } }

/-! ### `performAction` -/

inductive PAction where
  | fold
  | check
  | call
  | raise (amount : Int)
  | allin
deriving DecidableEq, Repr

/-- The forced-fold guard: a player with no chips may only fold or check;
any other request is coerced to a fold. -/
def coerceAction (p : PlayerInfo) (a : PAction) : PAction :=
  if p.chips ≤ 0 ∧ ¬(a = PAction.fold ∨ a = PAction.check) then PAction.fold
  else a

/-- The `switch (actionStr)` body applied to one matching player, also
returning the values written to the mutable `potIncrease` and
`newTableBet` registers (`pi`, `ntb` are the current register values;
`raise` covers the identical `raise`/`bet` branch of the source). -/
def stepPlayer (tableBet : Int) (a : PAction) (p : PlayerInfo) (pi ntb : Int) :
    PlayerInfo × Int × Int :=
  match a with
  | PAction.fold => ({ p with status := "Folded" }, pi, ntb)
  | PAction.check => (p, pi, ntb)
  | PAction.call =>
      let callAmount := min p.chips (max 0 (tableBet - p.currentBet))
      let newChips := max 0 (p.chips - callAmount)
      ({ p with
          chips := newChips,
          currentBet := p.currentBet + callAmount,
          status := if newChips = 0 then "AllIn" else p.status },
       callAmount, ntb)
  | PAction.raise amount =>
      let callFirst := max 0 (tableBet - p.currentBet)
      let maxRaise := max 0 (p.chips - callFirst)
      let actualRaise := min amount maxRaise
      let totalBet := min p.chips (callFirst + actualRaise)
      let newChips := max 0 (p.chips - totalBet)
      ({ p with
          chips := newChips,
          currentBet := p.currentBet + totalBet,
          status := if newChips = 0 then "AllIn" else p.status },
       totalBet, p.currentBet + totalBet)
  | PAction.allin =>
      let allInAmount := max 0 p.chips
      let newPlayerBet := p.currentBet + allInAmount
      ({ p with chips := 0, currentBet := newPlayerBet, status := "AllIn" },
       allInAmount, if tableBet < newPlayerBet then newPlayerBet else ntb)

/-- `currentState.players.map(...)` with the two mutable registers
threaded in program order (every player whose name matches acts; reachable
states have unique names, so at most one does). -/
def processPlayers (tableBet : Int) (nm : String) (a : PAction) :
    List PlayerInfo → Int → Int → List PlayerInfo × Int × Int
  | [], pi, ntb => ([], pi, ntb)
  | p :: rest, pi, ntb =>
      if p.name = nm then
        let r1 := stepPlayer tableBet a p pi ntb
        let r2 := processPlayers tableBet nm a rest r1.2.1 r1.2.2
        (r1.1 :: r2.1, r2.2.1, r2.2.2)
      else
        let r2 := processPlayers tableBet nm a rest pi ntb
        (p :: r2.1, r2.2.1, r2.2.2)

/-- Winner payout map shared by the fold-win and showdown branches: the
winner gains the pot and everyone's bet is reset. -/
def awardPot (updated : List PlayerInfo) (winnerName : String)
    (totalPot : Int) : List PlayerInfo :=
  updated.map fun p =>
    if p.name = winnerName then
      { p with
        chips := p.chips + totalPot,
        currentBet := 0,
        status := "Active" }
    else
      { p with
        currentBet := 0,
        status := if 0 < p.chips then "Active" else "Folded" }

/-- The immediate fold-win state (reason `fold`): community cards are kept
as they were when the hand ended. -/
def foldWinState (st : GameState) (updated : List PlayerInfo)
    (potIncrease : Int) (w : PlayerInfo) : GameState :=
  { st with
    players := awardPot updated w.name (st.pot + potIncrease),
    pot := 0,
    currentBet := 0,
    phase := "Winner",
    winner := some ⟨w.name, st.pot + potIncrease, "fold", none⟩ }

def allSomeList : List (Option Card) → Option (List Card)
  | [] => some []
  | none :: _ => none
  | some c :: t => (allSomeList t).map fun l => c :: l

def bestOfList (cards : List Card) : HandEval :=
  (combos 5 cards).foldl (fun best c => updateBest best (evaluate5Cards c))
    ⟨0, [0]⟩

/-- `evaluateBestHand` on JS values: if some 5-card combination contains
`undefined` the evaluator throws (`none`); with fewer than 5 cards the
loop body never runs and the sentinel initial hand is returned. -/
def evaluateBestHandO (holeCards comm : List (Option Card)) :
    Option HandEval :=
  match allSomeList (holeCards ++ comm) with
  | some cs => some (bestOfList cs)
  | none => if (holeCards ++ comm).length < 5 then some ⟨0, [0]⟩ else none

/-- The hand-evaluation pass over `playersInShowdown`: hole cards come
from `dealtCards.playerCards` at the player's index in `updatedPlayers`
(a missing index yields `[]` exactly as `?.[idx] || []` does); a thrown
evaluation aborts the whole action (`none`). -/
def collectHands (updated : List PlayerInfo) (dealt : Option DealtCards)
    (newCC : List (Option Card)) :
    List PlayerInfo → Option (List (PlayerInfo × List (Option Card) × HandEval))
  | [] => some []
  | player :: rest =>
      let playerIdx := updated.findIdx fun p => p.name == player.name
      let holeCards := match dealt with
        | some d => d.playerCards.getD playerIdx []
        | none => []
      match evaluateBestHandO holeCards newCC,
          collectHands updated dealt newCC rest with
      | some he, some l => some ((player, holeCards, he) :: l)
      | _, _ => none

/-- One step of the winner-selection loop: the candidate hand is compared
with the current `winners[0]`; strictly better replaces the list, a tie
appends, otherwise the list is unchanged. -/
def pickStep (h0 : PlayerInfo × List (Option Card) × HandEval)
    (ws : List (PlayerInfo × List (Option Card) × HandEval))
    (ph : PlayerInfo × List (Option Card) × HandEval) :
    List (PlayerInfo × List (Option Card) × HandEval) :=
  if 0 < compareHands ph.2.2 ((ws.headD h0).2.2) then [ph]
  else if compareHands ph.2.2 ((ws.headD h0).2.2) = 0 then ws ++ [ph]
  else ws

/-- The winner-selection loop, started from `[playerHands[0]]`. -/
def pickWinners :
    List (PlayerInfo × List (Option Card) × HandEval) →
      List (PlayerInfo × List (Option Card) × HandEval)
  | [] => []
  | h0 :: rest => rest.foldl (pickStep h0) [h0]

/-- The showdown Winner state: the pot goes entirely to `winners[0]`
(the source's `TODO: split pot for ties` is not implemented). -/
def showdownStateOf (st : GameState) (updated : List PlayerInfo)
    (potIncrease : Int) (newCC : List (Option Card))
    (hands : List (PlayerInfo × List (Option Card) × HandEval)) : GameState :=
  let w := (pickWinners hands).headD default
  let totalPot := st.pot + potIncrease
  { st with
    players := awardPot updated w.1.name totalPot,
    pot := 0,
    currentBet := 0,
    phase := "Winner",
    communityCards := newCC,
    currentPlayerIndex := 0,
    winner := some ⟨w.1.name, totalPot, "showdown",
      some (getHandRankName w.2.2.rank)⟩,
    showdownCards := some (hands.map fun ph =>
      ⟨ph.1.name, ph.2.1, getHandRankName ph.2.2.rank⟩) }

/-- Post-flop first-actor scan: the first Active/AllIn player clockwise
from the dealer (`fuel` runs the loop `i = 1 .. numPlayers`). -/
def scanActorAux (ps : List PlayerInfo) (dealerPos : Nat) :
    Nat → Nat → Option Nat
  | 0, _ => none
  | fuel + 1, i =>
      let checkPos := (dealerPos + i) % ps.length
      let player := ps.getD checkPos default
      if player.status = "Active" ∨ player.status = "AllIn" then some checkPos
      else scanActorAux ps dealerPos fuel (i + 1)

/-- The ordinary post-action state: pot and table bet updated, bets reset
and first actor recomputed when the phase advanced. -/
def normalState (st : GameState) (updated : List PlayerInfo)
    (potIncrease ntb : Int) (nextPlayerIndex : Nat) (newPhase : String)
    (newCC : List (Option Card)) (resetBets : Bool) : GameState :=
  let finalPlayers := if resetBets then
      updated.map fun p => { p with currentBet := 0 }
    else updated
  let newCurrentPlayerIndex :=
    if resetBets && !(newPhase == "Showdown") then
      (scanActorAux finalPlayers st.dealerPosition finalPlayers.length
        1).getD nextPlayerIndex
    else nextPlayerIndex
  { st with
    players := finalPlayers,
    pot := st.pot + potIncrease,
    currentBet := if resetBets then 0 else ntb,
    currentPlayerIndex := newCurrentPlayerIndex,
    phase := newPhase,
    communityCards := newCC }

def phasesList : List String := ["PreFlop", "Flop", "Turn", "River", "Showdown"]

/-- The tail of the round logic once `advancing`, `newPhase` and `newCC`
have been computed: at Showdown the §showdown resolution runs (a thrown
hand evaluation aborts), otherwise the ordinary post-action state is
built. -/
def roundFinish (st : GameState) (updated : List PlayerInfo)
    (potIncrease newTableBet : Int) (nextPlayerIndex : Nat)
    (advancing : Bool) (newPhase : String)
    (newCC : List (Option Card)) : GameState × Bool :=
  if advancing && (newPhase == "Showdown") then
    let pis := updated.filter fun p => p.status != "Folded"
    if pis.length ≠ 0 then
      match collectHands updated st.dealtCards newCC pis with
      | some hands =>
          (showdownStateOf st updated potIncrease newCC hands, false)
      | none => (st, true)
    else
      (normalState st updated potIncrease newTableBet nextPlayerIndex
        newPhase newCC advancing, false)
  else
    (normalState st updated potIncrease newTableBet nextPlayerIndex
      newPhase newCC advancing, false)

/-- Everything `performAction` does after the fold-win check: next-player
computation, round-close test, phase advancement, community-card reveal,
and (at Showdown) the §showdown resolution.  `updated`, `potIncrease` and
`newTableBet` are the results of the player-update pass. -/
def roundBody (st : GameState) (nm : String) (a : PAction)
    (updated : List PlayerInfo) (potIncrease newTableBet : Int) :
    GameState × Bool :=
  let activePlayers := updated.filter fun p =>
    p.status == "Active" || p.status == "AllIn"
  let ci : Int := match activePlayers.findIdx? fun p => p.name == nm with
    | some k => (k : Int)
    | none => -1
  let nextPlayerIndex : Nat :=
    if activePlayers.length ≠ 0 then (ci + 1).toNat % activePlayers.length
    else 0
  let allPlayersMatched := activePlayers.all fun p =>
    p.currentBet == newTableBet || p.status == "AllIn"
  let isClosingAction : Bool :=
    a == PAction.check || a == PAction.call || a == PAction.fold
  let bettingRoundComplete := allPlayersMatched && isClosingAction
  let currentPhaseIdx : Int :=
    match phasesList.findIdx? fun ph => ph == st.phase with
    | some k => (k : Int)
    | none => -1
  let advancing := bettingRoundComplete &&
    decide (1 < activePlayers.length) && decide (currentPhaseIdx < 4)
  let newPhase := if advancing then
      phasesList.getD (currentPhaseIdx + 1).toNat ""
    else st.phase
  let preDealt := match st.dealtCards with
    | some d => d.communityCards
    | none => []
  let newCC :=
    if advancing then
      if newPhase = "Flop" ∧ st.communityCards.length = 0 then
        preDealt.take 3
      else if newPhase = "Turn" ∧ st.communityCards.length = 3 then
        match preDealt.getD 3 none with
        | some c => st.communityCards ++ [some c]
        | none => st.communityCards
      else if newPhase = "River" ∧ st.communityCards.length = 4 then
        match preDealt.getD 4 none with
        | some c => st.communityCards ++ [some c]
        | none => st.communityCards
      else st.communityCards
    else st.communityCards
  roundFinish st updated potIncrease newTableBet nextPlayerIndex advancing
    newPhase newCC

/-- The body of `performAction` once the acting player has been resolved:
forced-fold coercion, the player-update pass, and the immediate fold-win
check, falling through to `roundBody`. -/
def actBody (st : GameState) (nm : String) (acting : PlayerInfo)
    (a0 : PAction) : GameState × Bool :=
  let a := coerceAction acting a0
  let res := processPlayers st.currentBet nm a st.players 0 st.currentBet
  let playersStillIn := res.1.filter fun p => p.status != "Folded"
  if playersStillIn.length = 1 then
    match playersStillIn with
    | w :: _ => (foldWinState st res.1 res.2.1 w, false)
    | [] => (st, false)
  else roundBody st nm a res.1 res.2.1 res.2.2

/-- `performAction(action, playerName)` on the current state.  The second
component records whether the JS code threw (caught by the surrounding
`try`, leaving the broadcast state unchanged); an action by a name not at
the table is a silent no-op with no error. -/
def performAction (st : GameState) (nm : String) (a0 : PAction) :
    GameState × Bool :=
  match st.players.find? fun p => p.name == nm with
  | none => (st, false)
  | some acting => actBody st nm acting a0

/-! ### The automatic post-win transitions (the 5-second timeouts) -/

def nextHandReset (ws : GameState) : GameState :=
  { ws with
    phase := "ReadyForNextHand",
    communityCards := [],
    winner := none,
    players := ws.players.map fun p =>
      { p with
        status := if 0 < p.chips then "Active" else "Out",
        currentBet := 0 } }

def gameOverOf (ws : GameState) : GameState :=
  { ws with phase := "GameOver", communityCards := [] }

/-- After the 5-second Winner display: next hand if at least two players
still have chips, otherwise game over. -/
def postWinnerStep (ws : GameState) : GameState :=
  if 1 < (ws.players.filter fun p => decide (0 < p.chips)).length then
    nextHandReset ws
  else gameOverOf ws

/-- The reset broadcast after GameOver. -/
def waitingReset (gs : GameState) : GameState :=
  { gs with
    phase := "Waiting",
    winner := none,
    players := [],
    playerCount := 0 }

/-! ### Chip-quantity bookkeeping -/

def chipSum (ps : List PlayerInfo) : Int := (ps.map fun p => p.chips).sum

def betSum (ps : List PlayerInfo) : Int := (ps.map fun p => p.currentBet).sum

/-- The quantity claimed invariant by the spec: chips + pot + posted bets. -/
def specQuantity (s : GameState) : Int := chipSum s.players + s.pot + betSum s.players

/-- The quantity the code actually conserves: chips + pot (each payment is
added to the pot at the moment it is deducted from the chips, so the
`currentBet` fields are trackers already included in the pot). -/
def potQuantity (s : GameState) : Int := chipSum s.players + s.pot

/-! ### Concrete scenario states -/

/-- Heads-up table after `A` and `B` join with 1000 chips each. -/
def headsUpJoined : GameState :=
  joinApply (joinApply (initialState "t") "A" "A" 1000) "B" "B" 1000

def headsUpStarted : GameState := startGameFn headsUpJoined

def headsUpRaised : GameState :=
  (performAction headsUpStarted "B" (PAction.raise 100)).1

def headsUpFolded : GameState :=
  (performAction headsUpRaised "A" PAction.fold).1

/-- C5: the heads-up fold-win scenario.  After StartGame the dealer
(player index 1, here "B") posts the small blind 10 (990 left), the other
player posts the big blind 20 (980 left), the pot is 30 and the small
blind acts first; after the small blind raises by 100 the raise pays
10 + 100 = 110 (new bet 120, chips 880, pot 140); after the other player
folds the raiser holds 1020, the folder 980, and the phase is Winner with
reason `fold` and amount 140. -/
theorem headsUp_fold_win_scenario :
    headsUpStarted.dealerPosition = 1 ∧
    (headsUpStarted.players.map fun p => (p.name, p.chips, p.currentBet)) =
      [("A", 980, 20), ("B", 990, 10)] ∧
    headsUpStarted.pot = 30 ∧
    headsUpStarted.currentBet = 20 ∧
    headsUpStarted.currentPlayerIndex = 1 ∧
    headsUpStarted.phase = "PreFlop" ∧
    (headsUpRaised.players.map fun p => (p.name, p.chips, p.currentBet)) =
      [("A", 980, 20), ("B", 880, 120)] ∧
    headsUpRaised.pot = 140 ∧
    headsUpRaised.currentBet = 120 ∧
    (headsUpFolded.players.map fun p => (p.name, p.chips)) =
      [("A", 980), ("B", 1020)] ∧
    headsUpFolded.pot = 0 ∧
    headsUpFolded.phase = "Winner" ∧
    headsUpFolded.winner = some ⟨"B", 140, "fold", none⟩ := by
  refine ⟨?_, ?_, ?_, ?_, ?_, ?_, ?_, ?_, ?_, ?_, ?_, ?_, ?_⟩ <;> rfl

/-- A River state in which the two live players both play the board: the
community cards form a royal flush, so their best hands tie exactly. -/
def tieShowdownState : GameState :=
  { initialState "t" with
    players := [⟨"P1", "P1", 400, "Active", 0⟩, ⟨"P2", "P2", 400, "Active", 0⟩],
    pot := 200,
    currentBet := 0,
    phase := "River",
    communityCards := [some ⟨"A", "spades", 14⟩, some ⟨"K", "spades", 13⟩,
      some ⟨"Q", "spades", 12⟩, some ⟨"J", "spades", 11⟩,
      some ⟨"10", "spades", 10⟩],
    dealtCards := some ⟨[[some ⟨"2", "hearts", 2⟩, some ⟨"3", "hearts", 3⟩],
        [some ⟨"2", "diamonds", 2⟩, some ⟨"3", "diamonds", 3⟩]],
      [some ⟨"A", "spades", 14⟩, some ⟨"K", "spades", 13⟩,
       some ⟨"Q", "spades", 12⟩, some ⟨"J", "spades", 11⟩,
       some ⟨"10", "spades", 10⟩]⟩ }

/-- C1 (code defect, `TODO: split pot for ties` in the source): at
`tieShowdownState` the check closes the River round, both players' best
hands compare equal (the board royal flush), yet the full 200-chip pot is
paid to the first tied player P1 (600 v 400) instead of being split
100/100 as the specification requires. -/
theorem showdown_tie_first_winner_takes_all :
    compareHands
      ((evaluateBestHandO [some ⟨"2", "hearts", 2⟩, some ⟨"3", "hearts", 3⟩]
        tieShowdownState.communityCards).getD ⟨0, [0]⟩)
      ((evaluateBestHandO [some ⟨"2", "diamonds", 2⟩, some ⟨"3", "diamonds", 3⟩]
        tieShowdownState.communityCards).getD ⟨0, [0]⟩) = 0 ∧
    ((performAction tieShowdownState "P1" PAction.check).1.players.map
      fun p => (p.name, p.chips)) = [("P1", 600), ("P2", 400)] ∧
    (performAction tieShowdownState "P1" PAction.check).1.winner =
      some ⟨"P1", 200, "showdown", some "Royal Flush"⟩ ∧
    (performAction tieShowdownState "P1" PAction.check).1.pot = 0 := by
  refine ⟨?_, ?_, ?_, ?_⟩ <;> rfl

/-- A PreFlop state where "A" has yet to match the 20-chip table bet. -/
def callDoubleCountState : GameState :=
  { initialState "t" with
    players := [⟨"A", "A", 100, "Active", 0⟩, ⟨"B", "B", 100, "Active", 10⟩],
    pot := 20,
    currentBet := 20,
    phase := "PreFlop" }

/-- C2 (counterexample): a single Call moves 20 chips from A's stack but
adds them to both the pot and A's `currentBet`, so the spec's quantity
`Σchips + pot + Σbet` grows from 230 to 250 across this one action. -/
theorem spec_quantity_not_invariant :
    specQuantity callDoubleCountState = 230 ∧
    specQuantity ((performAction callDoubleCountState "A" PAction.call).1) =
      250 := by
  exact ⟨rfl, rfl⟩

/-- A PreFlop state whose current actor (index 0) is "A". -/
def outOfTurnState : GameState :=
  { initialState "t" with
    players := [⟨"A", "A", 100, "Active", 20⟩, ⟨"B", "B", 100, "Active", 0⟩],
    pot := 20,
    currentBet := 20,
    phase := "PreFlop" }

/-- C3 (counterexample): `currentPlayerIndex = 0` points at "A", yet a
Call submitted by "B" is applied: the pot grows to 40, B pays 20, and no
error is reported.  Out-of-turn actions are not rejected. -/
theorem out_of_turn_action_applied :
    outOfTurnState.currentPlayerIndex = 0 ∧
    (outOfTurnState.players.getD 0 default).name = "A" ∧
    (performAction outOfTurnState "B" PAction.call).1 ≠ outOfTurnState ∧
    (performAction outOfTurnState "B" PAction.call).1.pot = 40 ∧
    (performAction outOfTurnState "B" PAction.call).2 = false := by
  refine ⟨rfl, rfl, by decide, rfl, rfl⟩

/-- C3 (amended): `performAction` performs no turn validation at all; the
only rejected request is one whose player name is not seated at the
table, and even that is a silent no-op: the state is returned unchanged
and no error is raised. -/
theorem unknown_player_action_noop (st : GameState) (nm : String)
    (a : PAction) (h : ∀ p ∈ st.players, p.name ≠ nm) :
    performAction st nm a = (st, false) := by
  unfold performAction
  have hfind : (st.players.find? fun p => p.name == nm) = none := by
    apply List.find?_eq_none.2
    intro p hp
    simpa using h p hp
  rw [hfind]

theorem unknown_player_action_noop_witness :
    performAction (initialState "t") "Z" PAction.check =
      (initialState "t", false) :=
  unknown_player_action_noop (initialState "t") "Z" PAction.check
    (by intro p hp; simp [initialState] at hp)

/-- A Flop state with two matched Active players and one AllIn player
whose posted bet (5) does not match the 20-chip table bet. -/
def allInExemptState : GameState :=
  { initialState "t" with
    players := [⟨"P1", "P1", 100, "Active", 20⟩, ⟨"P2", "P2", 100, "Active", 20⟩,
      ⟨"P3", "P3", 0, "AllIn", 5⟩],
    pot := 45,
    currentBet := 20,
    phase := "Flop",
    communityCards := [some ⟨"2", "hearts", 2⟩, some ⟨"7", "spades", 7⟩,
      some ⟨"9", "clubs", 9⟩],
    dealtCards := some ⟨[[some ⟨"A", "spades", 14⟩, some ⟨"K", "spades", 13⟩],
        [some ⟨"Q", "hearts", 12⟩, some ⟨"J", "hearts", 11⟩],
        [some ⟨"3", "clubs", 3⟩, some ⟨"4", "clubs", 4⟩]],
      [some ⟨"2", "hearts", 2⟩, some ⟨"7", "spades", 7⟩, some ⟨"9", "clubs", 9⟩,
       some ⟨"10", "diamonds", 10⟩, some ⟨"6", "diamonds", 6⟩]⟩ }

/-- C4 (counterexample): `allInExemptState` has an AllIn player whose
`currentBet` (5) differs from the table `currentBet` (20), so clause (a)
of the claim fails, yet a Check still closes the round and advances the
phase from Flop to Turn: the code exempts AllIn players from the
matching requirement. -/
theorem allin_unmatched_still_closes :
    (∃ p ∈ allInExemptState.players, p.status = "AllIn" ∧
      p.currentBet ≠ allInExemptState.currentBet) ∧
    allInExemptState.phase = "Flop" ∧
    (performAction allInExemptState "P1" PAction.check).1.phase = "Turn" := by
  refine ⟨⟨⟨"P3", "P3", 0, "AllIn", 5⟩, by decide, by decide, by decide⟩, rfl, rfl⟩

/-! ### Chip conservation -/

theorem stepPlayer_name (tableBet : Int) (a : PAction) (p : PlayerInfo)
    (pi ntb : Int) : (stepPlayer tableBet a p pi ntb).1.name = p.name := by
  cases a <;> rfl

theorem processPlayers_names (tableBet : Int) (nm : String) (a : PAction) :
    ∀ (ps : List PlayerInfo) (pi ntb : Int),
      (processPlayers tableBet nm a ps pi ntb).1.map (fun p => p.name) =
        ps.map fun p => p.name := by
  intro ps
  induction ps with
  | nil => intro pi ntb; rfl
  | cons p rest ih =>
    intro pi ntb
    unfold processPlayers
    split
    · simp only [List.map_cons, stepPlayer_name]
      rw [ih]
    · simp only [List.map_cons]
      rw [ih]

theorem processPlayers_none (tableBet : Int) (nm : String) (a : PAction) :
    ∀ (ps : List PlayerInfo) (pi ntb : Int), (∀ p ∈ ps, p.name ≠ nm) →
      processPlayers tableBet nm a ps pi ntb = (ps, pi, ntb) := by
  intro ps
  induction ps with
  | nil => intro pi ntb _; rfl
  | cons p rest ih =>
    intro pi ntb h
    unfold processPlayers
    rw [if_neg (h p (List.mem_cons_self _ _))]
    rw [ih pi ntb fun q hq => h q (List.mem_cons_of_mem _ hq)]

/-- One matching player's update pays exactly the written `potIncrease`
out of their stack (the forced-fold guard ensures the paying branches run
only with positive chips). -/
theorem stepPlayer_pays (tableBet : Int) (a : PAction) (p : PlayerInfo)
    (ntb : Int)
    (hpos : (a = PAction.call ∨ (∃ x, a = PAction.raise x) ∨
      a = PAction.allin) → 0 < p.chips) :
    (stepPlayer tableBet a p 0 ntb).1.chips + (stepPlayer tableBet a p 0 ntb).2.1
      = p.chips := by
  cases a with
  | fold => simp [stepPlayer]
  | check => simp [stepPlayer]
  | call =>
      have hp := hpos (Or.inl rfl)
      simp only [stepPlayer]
      omega
  | raise x =>
      simp only [stepPlayer]
      omega
  | allin =>
      have hp := hpos (Or.inr (Or.inr rfl))
      simp only [stepPlayer]
      omega

theorem chipSum_cons (p : PlayerInfo) (ps : List PlayerInfo) :
    chipSum (p :: ps) = p.chips + chipSum ps := by
  simp [chipSum]

/-- The player-update pass conserves chips-plus-written-pot-increase when
at most one player carries the acting name. -/
theorem processPlayers_conserve (tableBet : Int) (nm : String) (a : PAction) :
    ∀ (ps : List PlayerInfo) (ntb : Int),
      (ps.countP fun p => p.name == nm) ≤ 1 →
      (∀ p ∈ ps, p.name = nm →
        (a = PAction.call ∨ (∃ x, a = PAction.raise x) ∨ a = PAction.allin) →
        0 < p.chips) →
      chipSum (processPlayers tableBet nm a ps 0 ntb).1 +
        (processPlayers tableBet nm a ps 0 ntb).2.1 = chipSum ps := by
  intro ps
  induction ps with
  | nil => intro ntb _ _; rfl
  | cons p rest ih =>
    intro ntb hcnt hch
    by_cases hname : p.name = nm
    · have hrest : ∀ q ∈ rest, q.name ≠ nm := by
        intro q hq hqeq
        have : 1 ≤ rest.countP fun r => r.name == nm := by
          have : q ∈ rest.filter fun r => r.name == nm := by
            rw [List.mem_filter]
            exact ⟨hq, by simpa using hqeq⟩
          have hlen : 0 < (rest.filter fun r => r.name == nm).length :=
            List.length_pos.2 (List.ne_nil_of_mem this)
          rw [← List.countP_eq_length_filter] at hlen
          omega
        rw [List.countP_cons_of_pos _ _ (by simpa using hname)] at hcnt
        omega
      unfold processPlayers
      rw [if_pos hname]
      have hpay := stepPlayer_pays tableBet a p ntb
        (fun hpa => hch p (List.mem_cons_self _ _) hname hpa)
      dsimp only
      rw [processPlayers_none tableBet nm a rest _ _ hrest]
      simp only [chipSum_cons]
      omega
    · unfold processPlayers
      rw [if_neg hname]
      have hcnt2 : (rest.countP fun r => r.name == nm) ≤ 1 := by
        rw [List.countP_cons_of_neg _ _ (by simpa using hname)] at hcnt
        exact hcnt
      have hch2 : ∀ q ∈ rest, q.name = nm →
          (a = PAction.call ∨ (∃ x, a = PAction.raise x) ∨ a = PAction.allin) →
          0 < q.chips :=
        fun q hq => hch q (List.mem_cons_of_mem _ hq)
      have hres := ih ntb hcnt2 hch2
      dsimp only
      simp only [chipSum_cons]
      omega

theorem chipSum_awardPot (updated : List PlayerInfo) (w : String)
    (tp : Int) :
    chipSum (awardPot updated w tp) =
      chipSum updated + tp * (updated.countP fun p => p.name == w) := by
  induction updated with
  | nil => simp [awardPot, chipSum]
  | cons p rest ih =>
    unfold awardPot at ih ⊢
    rw [List.map_cons]
    by_cases h : p.name = w
    · rw [List.countP_cons_of_pos _ _ (by simpa using h), chipSum_cons,
        chipSum_cons, if_pos h, ih]
      push_cast
      ring
    · rw [List.countP_cons_of_neg _ _ (by simpa using h), chipSum_cons,
        chipSum_cons, if_neg h, ih]
      push_cast
      ring

theorem countP_name_eq_count_map (ps : List PlayerInfo) (nm : String) :
    (ps.countP fun p => p.name == nm) = (ps.map fun p => p.name).count nm := by
  induction ps with
  | nil => rfl
  | cons p rest ih =>
    by_cases h : p.name = nm
    · rw [List.countP_cons_of_pos _ _ (by simpa using h), List.map_cons,
        ih, List.count_cons]
      simp [h]
    · rw [List.countP_cons_of_neg _ _ (by simpa using h), List.map_cons,
        ih, List.count_cons]
      simp [h]

theorem count_eq_one_of_nodup_mem {l : List String} (h : l.Nodup)
    {a : String} (ha : a ∈ l) : l.count a = 1 := by
  have h1 := List.nodup_iff_count_le_one.1 h a
  have h2 : 0 < l.count a := List.count_pos_iff.2 ha
  omega

theorem map_name_comp {f : PlayerInfo → PlayerInfo}
    (hf : ∀ p, (f p).name = p.name) (u : List PlayerInfo) :
    (u.map f).map (fun p => p.name) = u.map fun p => p.name := by
  induction u with
  | nil => rfl
  | cons p t ih => simp only [List.map_cons, hf, ih]

theorem awardPot_names (u : List PlayerInfo) (w : String) (tp : Int) :
    (awardPot u w tp).map (fun p => p.name) = u.map fun p => p.name := by
  unfold awardPot
  apply map_name_comp
  intro p
  split <;> rfl

theorem chipSum_reset (ps : List PlayerInfo) :
    chipSum (ps.map fun p => { p with currentBet := 0 }) = chipSum ps := by
  induction ps with
  | nil => rfl
  | cons p t ih =>
    simp only [List.map_cons, chipSum_cons] at *
    omega

theorem reset_names (ps : List PlayerInfo) :
    ((ps.map fun p => { p with currentBet := 0 }).map fun p => p.name) =
      ps.map fun p => p.name := by
  apply map_name_comp
  intro p
  rfl

theorem normalState_quantity (st : GameState) (updated : List PlayerInfo)
    (pI ntb : Int) (ni : Nat) (np : String) (ncc : List (Option Card))
    (rb : Bool) :
    potQuantity (normalState st updated pI ntb ni np ncc rb) =
      chipSum updated + st.pot + pI := by
  unfold potQuantity normalState
  dsimp only
  by_cases h : rb = true
  · rw [if_pos h, chipSum_reset]
    ring
  · rw [if_neg h]
    ring

theorem normalState_names (st : GameState) (updated : List PlayerInfo)
    (pI ntb : Int) (ni : Nat) (np : String) (ncc : List (Option Card))
    (rb : Bool) :
    ((normalState st updated pI ntb ni np ncc rb).players.map
        fun p => p.name) = updated.map fun p => p.name := by
  unfold normalState
  dsimp only
  by_cases h : rb = true
  · rw [if_pos h, reset_names]
  · rw [if_neg h]

theorem foldWinState_quantity (st : GameState) (updated : List PlayerInfo)
    (pI : Int) (w : PlayerInfo)
    (hw : (updated.countP fun p => p.name == w.name) = 1) :
    potQuantity (foldWinState st updated pI w) =
      chipSum updated + st.pot + pI := by
  unfold potQuantity foldWinState
  dsimp only
  rw [chipSum_awardPot, hw]
  push_cast
  ring

theorem foldWinState_names (st : GameState) (updated : List PlayerInfo)
    (pI : Int) (w : PlayerInfo) :
    ((foldWinState st updated pI w).players.map fun p => p.name) =
      updated.map fun p => p.name := by
  unfold foldWinState
  dsimp only
  rw [awardPot_names]

theorem showdownStateOf_quantity (st : GameState) (updated : List PlayerInfo)
    (pI : Int) (ncc : List (Option Card))
    (hands : List (PlayerInfo × List (Option Card) × HandEval))
    (hw : (updated.countP fun p =>
        p.name == ((pickWinners hands).headD default).1.name) = 1) :
    potQuantity (showdownStateOf st updated pI ncc hands) =
      chipSum updated + st.pot + pI := by
  unfold potQuantity showdownStateOf
  dsimp only
  rw [chipSum_awardPot, hw]
  push_cast
  ring

theorem showdownStateOf_names (st : GameState) (updated : List PlayerInfo)
    (pI : Int) (ncc : List (Option Card))
    (hands : List (PlayerInfo × List (Option Card) × HandEval)) :
    ((showdownStateOf st updated pI ncc hands).players.map
        fun p => p.name) = updated.map fun p => p.name := by
  unfold showdownStateOf
  dsimp only
  rw [awardPot_names]

theorem collectHands_players (updated : List PlayerInfo)
    (d : Option DealtCards) (ncc : List (Option Card)) :
    ∀ (pis : List PlayerInfo)
      (hands : List (PlayerInfo × List (Option Card) × HandEval)),
      collectHands updated d ncc pis = some hands →
      hands.map (fun x => x.1) = pis := by
  intro pis
  induction pis with
  | nil =>
    intro hands h
    unfold collectHands at h
    injection h with h
    rw [← h]
    rfl
  | cons p t ih =>
    intro hands h
    unfold collectHands at h
    dsimp only at h
    split at h
    · rename_i ev l hev hrec
      injection h with h
      rw [← h]
      simp only [List.map_cons]
      rw [ih l hrec]
    · exact absurd h (by simp)

theorem pickStep_sub (h0 x : PlayerInfo × List (Option Card) × HandEval)
    (ws : List (PlayerInfo × List (Option Card) × HandEval)) :
    pickStep h0 ws x = [x] ∨ pickStep h0 ws x = ws ++ [x] ∨
      pickStep h0 ws x = ws := by
  unfold pickStep
  split
  · exact Or.inl rfl
  · split
    · exact Or.inr (Or.inl rfl)
    · exact Or.inr (Or.inr rfl)

theorem pickFold_inv (h0 : PlayerInfo × List (Option Card) × HandEval)
    (full : List (PlayerInfo × List (Option Card) × HandEval)) :
    ∀ (l ws : List (PlayerInfo × List (Option Card) × HandEval)),
      ws ≠ [] → (∀ x ∈ ws, x ∈ full) → (∀ x ∈ l, x ∈ full) →
      List.foldl (pickStep h0) ws l ≠ [] ∧
      ∀ x ∈ List.foldl (pickStep h0) ws l, x ∈ full := by
  intro l
  induction l with
  | nil =>
    intro ws h1 h2 _
    exact ⟨h1, h2⟩
  | cons y t ih =>
    intro ws h1 h2 hl
    rw [List.foldl_cons]
    apply ih
    · rcases pickStep_sub h0 y ws with h | h | h <;> rw [h] <;> simp [h1]
    · intro x hx
      rcases pickStep_sub h0 y ws with h | h | h <;> rw [h] at hx
      · rw [List.mem_singleton] at hx
        rw [hx]
        exact hl y (List.mem_cons_self _ _)
      · rcases List.mem_append.1 hx with hx | hx
        · exact h2 x hx
        · rw [List.mem_singleton] at hx
          rw [hx]
          exact hl y (List.mem_cons_self _ _)
      · exact h2 x hx
    · intro x hx
      exact hl x (List.mem_cons_of_mem _ hx)

theorem pickWinners_head_mem
    (hands : List (PlayerInfo × List (Option Card) × HandEval))
    (hne : hands ≠ []) : (pickWinners hands).headD default ∈ hands := by
  cases hands with
  | nil => exact absurd rfl hne
  | cons h0 rest =>
    show (List.foldl (pickStep h0) [h0] rest).headD default ∈ h0 :: rest
    obtain ⟨hnn, hsub⟩ := pickFold_inv h0 (h0 :: rest) rest [h0]
      (by simp) (by simp) (fun x hx => List.mem_cons_of_mem _ hx)
    rcases hres : List.foldl (pickStep h0) [h0] rest with _ | ⟨y, ys⟩
    · exact absurd hres hnn
    · rw [hres] at hsub
      exact hsub y (List.mem_cons_self _ _)

theorem roundFinish_quantity (st : GameState) (updated : List PlayerInfo)
    (pI ntb : Int) (ni : Nat) (adv : Bool) (np : String)
    (ncc : List (Option Card))
    (hnodup : (updated.map fun p => p.name).Nodup) :
    potQuantity (roundFinish st updated pI ntb ni adv np ncc).1 =
      chipSum updated + st.pot + pI ∨
      (roundFinish st updated pI ntb ni adv np ncc).1 = st := by
  unfold roundFinish
  by_cases hA : (adv && (np == "Showdown")) = true
  · rw [if_pos hA]
    dsimp only
    by_cases hlen : (updated.filter fun p => p.status != "Folded").length ≠ 0
    · rw [if_pos hlen]
      rcases hcoll : collectHands updated st.dealtCards ncc
          (updated.filter fun p => p.status != "Folded") with _ | hands
      · right
        rfl
      · left
        have hmap := collectHands_players updated st.dealtCards ncc _ hands
          hcoll
        have hhne : hands ≠ [] := by
          intro h0
          rw [h0] at hmap
          exact hlen (by rw [← hmap]; rfl)
        have hw := pickWinners_head_mem hands hhne
        have hw1 : ((pickWinners hands).headD default).1 ∈ updated := by
          have hm : ((pickWinners hands).headD default).1 ∈
              hands.map (fun x => x.1) := List.mem_map_of_mem _ hw
          rw [hmap] at hm
          exact (List.mem_filter.1 hm).1
        have hcnt : (updated.countP fun p =>
            p.name == ((pickWinners hands).headD default).1.name) = 1 := by
          rw [countP_name_eq_count_map]
          exact count_eq_one_of_nodup_mem hnodup (List.mem_map_of_mem _ hw1)
        exact showdownStateOf_quantity st updated pI ncc hands hcnt
    · rw [if_neg hlen]
      left
      exact normalState_quantity st updated pI ntb ni np ncc adv
  · rw [if_neg hA]
    left
    exact normalState_quantity st updated pI ntb ni np ncc adv

theorem roundFinish_names (st : GameState) (updated : List PlayerInfo)
    (pI ntb : Int) (ni : Nat) (adv : Bool) (np : String)
    (ncc : List (Option Card))
    (hst : st.players.map (fun p => p.name) = updated.map fun p => p.name) :
    ((roundFinish st updated pI ntb ni adv np ncc).1.players.map
        fun p => p.name) = updated.map fun p => p.name := by
  unfold roundFinish
  by_cases hA : (adv && (np == "Showdown")) = true
  · rw [if_pos hA]
    dsimp only
    by_cases hlen : (updated.filter fun p => p.status != "Folded").length ≠ 0
    · rw [if_pos hlen]
      rcases hcoll : collectHands updated st.dealtCards ncc
          (updated.filter fun p => p.status != "Folded") with _ | hands
      · exact hst
      · exact showdownStateOf_names st updated pI ncc hands
    · rw [if_neg hlen]
      exact normalState_names st updated pI ntb ni np ncc adv
  · rw [if_neg hA]
    exact normalState_names st updated pI ntb ni np ncc adv

theorem roundBody_quantity (st : GameState) (nm : String) (a : PAction)
    (updated : List PlayerInfo) (pI ntb : Int)
    (hnodup : (updated.map fun p => p.name).Nodup) :
    potQuantity (roundBody st nm a updated pI ntb).1 =
      chipSum updated + st.pot + pI ∨
      (roundBody st nm a updated pI ntb).1 = st := by
  unfold roundBody
  dsimp only
  exact roundFinish_quantity st updated pI ntb _ _ _ _ hnodup

theorem roundBody_names (st : GameState) (nm : String) (a : PAction)
    (updated : List PlayerInfo) (pI ntb : Int)
    (hst : st.players.map (fun p => p.name) = updated.map fun p => p.name) :
    ((roundBody st nm a updated pI ntb).1.players.map fun p => p.name) =
      updated.map fun p => p.name := by
  unfold roundBody
  dsimp only
  exact roundFinish_names st updated pI ntb _ _ _ _ hst

/-- An acting player with no chips left is never charged: the forced-fold
guard turns every paying request into a fold. -/
theorem coerce_positive (acting : PlayerInfo) (a0 : PAction) (st : GameState)
    (nm : String) (hnodup : (st.players.map fun p => p.name).Nodup)
    (hamem : acting ∈ st.players) (haname : acting.name = nm) :
    ∀ p ∈ st.players, p.name = nm →
      (coerceAction acting a0 = PAction.call ∨
        (∃ x, coerceAction acting a0 = PAction.raise x) ∨
        coerceAction acting a0 = PAction.allin) → 0 < p.chips := by
  intro p hp hpn hpa
  by_contra hle
  push_neg at hle
  have hpe : p = acting :=
    List.inj_on_of_nodup_map hnodup hp hamem
      (by simpa using hpn.trans haname.symm)
  rw [hpe] at hle
  unfold coerceAction at hpa
  by_cases h0 : a0 = PAction.fold ∨ a0 = PAction.check
  · rw [if_neg fun hc => hc.2 h0] at hpa
    rcases h0 with h0 | h0 <;> subst h0 <;>
      rcases hpa with h | ⟨x, h⟩ | h <;> exact PAction.noConfusion h
  · rw [if_pos ⟨hle, h0⟩] at hpa
    rcases hpa with h | ⟨x, h⟩ | h <;> exact PAction.noConfusion h

/-- Chips + pot is preserved by every `performAction`, provided player
names are unique (as the join guard ensures). -/
theorem performAction_potQuantity (st : GameState) (nm : String)
    (a0 : PAction) (hnodup : (st.players.map fun p => p.name).Nodup) :
    potQuantity (performAction st nm a0).1 = potQuantity st := by
  unfold performAction
  rcases hf : st.players.find? fun p => p.name == nm with _ | acting
  · rw [hf]
  · rw [hf]
    dsimp only
    unfold actBody
    dsimp only
    have haname : acting.name = nm := by
      have h := List.find?_some hf
      simpa using h
    have hamem : acting ∈ st.players := List.mem_of_find?_eq_some hf
    have hch := coerce_positive acting a0 st nm hnodup hamem haname
    have hcnt : (st.players.countP fun p => p.name == nm) ≤ 1 := by
      rw [countP_name_eq_count_map]
      exact List.nodup_iff_count_le_one.1 hnodup nm
    have hcons := processPlayers_conserve st.currentBet nm
      (coerceAction acting a0) st.players st.currentBet hcnt hch
    have hnames := processPlayers_names st.currentBet nm
      (coerceAction acting a0) st.players 0 st.currentBet
    generalize hproc : processPlayers st.currentBet nm (coerceAction acting a0)
      st.players 0 st.currentBet = res
    obtain ⟨updated, pI, ntb2⟩ := res
    rw [hproc] at hcons hnames
    dsimp only at hcons hnames
    dsimp only
    have hnodup2 : (updated.map fun p => p.name).Nodup := by
      rw [hnames]
      exact hnodup
    have hround : potQuantity
        (roundBody st nm (coerceAction acting a0) updated pI ntb2).1 =
        potQuantity st := by
      rcases roundBody_quantity st nm (coerceAction acting a0) updated pI
          ntb2 hnodup2 with h | h
      · rw [h]
        unfold potQuantity
        omega
      · rw [h]
    generalize hsplit : (updated.filter fun p => p.status != "Folded") = psi
    obtain _ | ⟨w, ws⟩ := psi
    · rw [if_neg (by simp)]
      exact hround
    · by_cases hlen : (w :: ws).length = 1
      · rw [if_pos hlen]
        dsimp only
        have hwmem : w ∈ updated := by
          have hm : w ∈ updated.filter fun p => p.status != "Folded" := by
            rw [hsplit]
            exact List.mem_cons_self _ _
          exact (List.mem_filter.1 hm).1
        have hcntw : (updated.countP fun p => p.name == w.name) = 1 := by
          rw [countP_name_eq_count_map]
          exact count_eq_one_of_nodup_mem hnodup2 (List.mem_map_of_mem _ hwmem)
        rw [foldWinState_quantity st updated pI w hcntw]
        unfold potQuantity
        omega
      · rw [if_neg hlen]
        exact hround

/-- `performAction` never renames, adds or removes players. -/
theorem performAction_names (st : GameState) (nm : String) (a0 : PAction) :
    ((performAction st nm a0).1.players.map fun p => p.name) =
      st.players.map fun p => p.name := by
  unfold performAction
  rcases hf : st.players.find? fun p => p.name == nm with _ | acting
  · rw [hf]
  · rw [hf]
    dsimp only
    unfold actBody
    dsimp only
    have hnames := processPlayers_names st.currentBet nm
      (coerceAction acting a0) st.players 0 st.currentBet
    generalize hproc : processPlayers st.currentBet nm (coerceAction acting a0)
      st.players 0 st.currentBet = res
    obtain ⟨updated, pI, ntb2⟩ := res
    rw [hproc] at hnames
    dsimp only at hnames
    dsimp only
    generalize hsplit : (updated.filter fun p => p.status != "Folded") = psi
    obtain _ | ⟨w, ws⟩ := psi
    · rw [if_neg (by simp)]
      rw [roundBody_names st nm (coerceAction acting a0) updated pI ntb2
        hnames.symm]
      exact hnames
    · by_cases hlen : (w :: ws).length = 1
      · rw [if_pos hlen]
        dsimp only
        rw [foldWinState_names st updated pI w]
        exact hnames
      · rw [if_neg hlen]
        rw [roundBody_names st nm (coerceAction acting a0) updated pI ntb2
          hnames.symm]
        exact hnames

/-- A sequence of `PlayerAction` requests applied in order. -/
def runActions (st : GameState) : List (String × PAction) → GameState
  | [] => st
  | (nm, a) :: rest => runActions (performAction st nm a).1 rest

theorem runActions_potQuantity (acts : List (String × PAction)) :
    ∀ st : GameState, (st.players.map fun p => p.name).Nodup →
      potQuantity (runActions st acts) = potQuantity st := by
  induction acts with
  | nil =>
    intro st _
    rfl
  | cons x t ih =>
    intro st h
    obtain ⟨nm, a⟩ := x
    show potQuantity (runActions (performAction st nm a).1 t) = potQuantity st
    rw [ih (performAction st nm a).1 (by rw [performAction_names]; exact h)]
    exact performAction_potQuantity st nm a h

/-- C10: every `performAction` step preserves the sum of all players'
chips plus the pot (`currentBet` excluded), under the unique player names
that the join guard enforces: call/raise/all-in payments leave the
actor's stack and enter `potIncrease` in the same step, and both the
fold-win and showdown payouts hand the accumulated pot to the winner
while zeroing it, so chips are never created or destroyed. -/
theorem pot_conservation (st : GameState) (nm : String) (a0 : PAction)
    (hnodup : (st.players.map fun p => p.name).Nodup) :
    potQuantity (performAction st nm a0).1 = potQuantity st :=
  performAction_potQuantity st nm a0 hnodup

theorem pot_conservation_witness :
    ((headsUpStarted.players.map fun p => p.name).Nodup) ∧
    potQuantity (performAction headsUpStarted "A" PAction.call).1 =
      potQuantity headsUpStarted := by
  have h : (headsUpStarted.players.map fun p => p.name).Nodup := by
    have he : headsUpStarted.players.map (fun p => p.name) = ["A", "B"] := rfl
    rw [he]
    decide
  exact ⟨h, pot_conservation headsUpStarted "A" PAction.call h⟩

/-- C2 (amended): the quantity the action switch actually conserves is
`Σchips + pot` without the `currentBet` term: a call or raise deducts the
payment from the actor's chips and adds it to the pot in the same step
while also raising the actor's `currentBet`, so the spec's
`Σchips + pot + ΣcurrentBet` counts every payment twice.  The corrected
quantity is constant across every sequence of actions (unique names
assumed, as the join guard enforces). -/
theorem chip_conservation_sequence (st : GameState)
    (hnodup : (st.players.map fun p => p.name).Nodup)
    (acts : List (String × PAction)) :
    potQuantity (runActions st acts) = potQuantity st :=
  runActions_potQuantity acts st hnodup

theorem chip_conservation_sequence_witness :
    ((headsUpStarted.players.map fun p => p.name).Nodup) ∧
    potQuantity (runActions headsUpStarted
        [("B", PAction.raise 100), ("A", PAction.call),
          ("A", PAction.check), ("B", PAction.check)]) =
      potQuantity headsUpStarted := by
  have h : (headsUpStarted.players.map fun p => p.name).Nodup := by
    have he : headsUpStarted.players.map (fun p => p.name) = ["A", "B"] := rfl
    rw [he]
    decide
  exact ⟨h, chip_conservation_sequence headsUpStarted h _⟩

/-- When the computed next phase is not Showdown, the resulting phase is
exactly that next phase. -/
theorem roundFinish_phase (st : GameState) (updated : List PlayerInfo)
    (pI ntb : Int) (ni : Nat) (adv : Bool) (np : String)
    (ncc : List (Option Card)) (hnp : np ≠ "Showdown") :
    (roundFinish st updated pI ntb ni adv np ncc).1.phase = np := by
  unfold roundFinish
  rw [show (adv && (np == "Showdown")) = false from by
    cases adv <;> simp [hnp]]
  rw [if_neg (by simp)]
  unfold normalState
  rfl

/-- C4 (amended): from a pre-river betting phase, the round closes and
the phase advances to the next phase exactly when every *Active* player
has matched the table bet (AllIn players are exempt from matching, which
refutes the claim's clause (a)), the action just applied was Check, Call
or Fold, and more than one Active/AllIn player remains. -/
theorem round_closes_rule (st : GameState) (nm : String) (a : PAction)
    (updated : List PlayerInfo) (pI ntb : Int) (np : String)
    (hphase : (st.phase = "PreFlop" ∧ np = "Flop") ∨
      (st.phase = "Flop" ∧ np = "Turn") ∨
      (st.phase = "Turn" ∧ np = "River")) :
    (roundBody st nm a updated pI ntb).1.phase =
      if ((updated.filter fun p =>
            p.status == "Active" || p.status == "AllIn").all fun p =>
              p.currentBet == ntb || p.status == "AllIn") &&
          (a == PAction.check || a == PAction.call || a == PAction.fold) &&
          decide (1 < (updated.filter fun p =>
            p.status == "Active" || p.status == "AllIn").length)
        then np else st.phase := by
  unfold roundBody
  dsimp only
  rcases hphase with ⟨h1, h2⟩ | ⟨h1, h2⟩ | ⟨h1, h2⟩ <;> subst h2 <;> rw [h1]
  · rw [show List.findIdx? (fun ph => ph == "PreFlop") phasesList = some 0
      from rfl]
    dsimp only
    rw [show (decide ((((0 : Nat) : Int)) < 4)) = true from rfl]
    rw [show ((((0 : Nat) : Int)) + 1).toNat = 1 from rfl]
    rw [show phasesList.getD 1 "" = "Flop" from rfl]
    simp only [Bool.and_true]
    exact roundFinish_phase st updated pI ntb _ _ _ _
      (by rcases hb : (((updated.filter fun p =>
            p.status == "Active" || p.status == "AllIn").all fun p =>
              p.currentBet == ntb || p.status == "AllIn") &&
          (a == PAction.check || a == PAction.call || a == PAction.fold) &&
          decide (1 < (updated.filter fun p =>
            p.status == "Active" || p.status == "AllIn").length)) with _ | _ <;>
        rw [hb] <;> decide)
  · rw [show List.findIdx? (fun ph => ph == "Flop") phasesList = some 1
      from rfl]
    dsimp only
    rw [show (decide ((((1 : Nat) : Int)) < 4)) = true from rfl]
    rw [show ((((1 : Nat) : Int)) + 1).toNat = 2 from rfl]
    rw [show phasesList.getD 2 "" = "Turn" from rfl]
    simp only [Bool.and_true]
    exact roundFinish_phase st updated pI ntb _ _ _ _
      (by rcases hb : (((updated.filter fun p =>
            p.status == "Active" || p.status == "AllIn").all fun p =>
              p.currentBet == ntb || p.status == "AllIn") &&
          (a == PAction.check || a == PAction.call || a == PAction.fold) &&
          decide (1 < (updated.filter fun p =>
            p.status == "Active" || p.status == "AllIn").length)) with _ | _ <;>
        rw [hb] <;> decide)
  · rw [show List.findIdx? (fun ph => ph == "Turn") phasesList = some 2
      from rfl]
    dsimp only
    rw [show (decide ((((2 : Nat) : Int)) < 4)) = true from rfl]
    rw [show ((((2 : Nat) : Int)) + 1).toNat = 3 from rfl]
    rw [show phasesList.getD 3 "" = "River" from rfl]
    simp only [Bool.and_true]
    exact roundFinish_phase st updated pI ntb _ _ _ _
      (by rcases hb : (((updated.filter fun p =>
            p.status == "Active" || p.status == "AllIn").all fun p =>
              p.currentBet == ntb || p.status == "AllIn") &&
          (a == PAction.check || a == PAction.call || a == PAction.fold) &&
          decide (1 < (updated.filter fun p =>
            p.status == "Active" || p.status == "AllIn").length)) with _ | _ <;>
        rw [hb] <;> decide)

/-- A Flop state with 3 Active players whose bets all match the 20-chip
table bet. -/
def threeMatchedState : GameState :=
  { initialState "t" with
    players := [⟨"P1", "P1", 80, "Active", 20⟩, ⟨"P2", "P2", 80, "Active", 20⟩,
      ⟨"P3", "P3", 80, "Active", 20⟩],
    pot := 60,
    currentBet := 20,
    phase := "Flop",
    communityCards := [some ⟨"2", "hearts", 2⟩, some ⟨"7", "spades", 7⟩,
      some ⟨"9", "clubs", 9⟩] }

theorem round_closes_rule_witness :
    threeMatchedState.phase = "Flop" ∧
    (roundBody threeMatchedState "P1" PAction.check
      threeMatchedState.players 0 20).1.phase = "Turn" := by
  constructor
  · rfl
  · rw [round_closes_rule threeMatchedState "P1" PAction.check
      threeMatchedState.players 0 20 "Turn" (Or.inr (Or.inl ⟨rfl, rfl⟩))]
    rfl

/-! ### The phase / community-card invariant (C8) -/

/-- The four phases in which `PlayerAction` requests are meant to arrive. -/
def bettingPhase (s : GameState) : Prop :=
  s.phase = "PreFlop" ∨ s.phase = "Flop" ∨ s.phase = "Turn" ∨
    s.phase = "River"

/-- The dealt cards on record hold five hole-card lists worth of structure:
five community cards, all defined. -/
def goodDealt (s : GameState) : Prop :=
  ∃ d, s.dealtCards = some d ∧ d.communityCards.length = 5 ∧
    ∀ c ∈ d.communityCards, c.isSome = true

/-- The state invariant: at most four seats, a known phase, the
community-card count determined by the phase (any of the mid-hand counts
in a Winner state, since a fold-win keeps the board as it was), and a
well-formed deal during the betting phases. -/
def Inv (s : GameState) : Prop :=
  s.players.length ≤ 4 ∧
  (s.phase = "Waiting" ∨ s.phase = "PreFlop" ∨ s.phase = "Flop" ∨
    s.phase = "Turn" ∨ s.phase = "River" ∨ s.phase = "Winner" ∨
    s.phase = "ReadyForNextHand" ∨ s.phase = "GameOver") ∧
  (s.phase = "Waiting" → s.communityCards.length = 0) ∧
  (s.phase = "PreFlop" → s.communityCards.length = 0) ∧
  (s.phase = "Flop" → s.communityCards.length = 3) ∧
  (s.phase = "Turn" → s.communityCards.length = 4) ∧
  (s.phase = "River" → s.communityCards.length = 5) ∧
  (s.phase = "Winner" → s.communityCards.length = 0 ∨
    s.communityCards.length = 3 ∨ s.communityCards.length = 4 ∨
    s.communityCards.length = 5) ∧
  (s.phase = "ReadyForNextHand" → s.communityCards.length = 0) ∧
  (s.phase = "GameOver" → s.communityCards.length = 0) ∧
  (bettingPhase s → goodDealt s)

theorem Inv_init (tid : String) : Inv (initialState tid) := by
  refine ⟨by simp [initialState], Or.inl rfl, fun _ => rfl, ?_, ?_, ?_, ?_,
    ?_, ?_, ?_, ?_⟩ <;>
    first
      | (intro hb; rcases hb with h | h | h | h <;> simp [initialState] at h)
      | (intro h; simp [initialState] at h)

theorem Inv_join (st : GameState) (nm addr : String) (chips : Int)
    (h : Inv st) : Inv (joinApply st nm addr chips) := by
  unfold joinApply
  split
  · exact h
  · split
    · exact h
    · rename_i hfull
      obtain ⟨h1, h2, h3, h4, h5, h6, h7, h8, h9, h10, h11⟩ := h
      exact ⟨by simp only [List.length_append, List.length_cons,
          List.length_nil]; omega,
        h2, h3, h4, h5, h6, h7, h8, h9, h10, h11⟩

theorem dealCards_comm_good (seed : Nat) (n : Nat) (hn : n ≤ 4) :
    (dealCards (shuffleDeck seed) n).communityCards.length = 5 ∧
      ∀ c ∈ (dealCards (shuffleDeck seed) n).communityCards,
        c.isSome = true := by
  constructor
  · rfl
  · intro c hc
    unfold dealCards at hc
    dsimp only at hc
    simp only [List.mem_cons, List.not_mem_nil, or_false] at hc
    rcases hc with h | h | h | h | h <;> rw [h] <;>
      exact shuffleDeck_getD_isSome seed _ (by omega)

theorem Inv_start (st : GameState) (h : Inv st) : Inv (startGameFn st) := by
  unfold startGameFn
  split
  · exact h
  · obtain ⟨h1, h2, h3, h4, h5, h6, h7, h8, h9, h10, h11⟩ := h
    dsimp only
    refine ⟨?_, Or.inr (Or.inl rfl), ?_, fun _ => rfl, ?_, ?_, ?_, ?_, ?_,
      ?_, ?_⟩
    · simpa using h1
    · intro hx; simp at hx
    · intro hx; simp at hx
    · intro hx; simp at hx
    · intro hx; simp at hx
    · intro hx; simp at hx
    · intro hx; simp at hx
    · intro hx; simp at hx
    · intro _
      refine ⟨_, rfl, dealCards_comm_good _ _ h1⟩

theorem Inv_postWinner (st : GameState) (h : Inv st) :
    Inv (postWinnerStep st) := by
  obtain ⟨h1, h2, h3, h4, h5, h6, h7, h8, h9, h10, h11⟩ := h
  unfold postWinnerStep
  split
  · unfold nextHandReset
    refine ⟨by simpa using h1,
      Or.inr (Or.inr (Or.inr (Or.inr (Or.inr (Or.inr (Or.inl rfl)))))),
      ?_, ?_, ?_, ?_, ?_, ?_, fun _ => rfl, ?_, ?_⟩ <;>
      first
        | (intro hb; rcases hb with hx | hx | hx | hx <;> simp at hx)
        | (intro hx; simp at hx)
  · unfold gameOverOf
    refine ⟨h1,
      Or.inr (Or.inr (Or.inr (Or.inr (Or.inr (Or.inr (Or.inr rfl)))))),
      ?_, ?_, ?_, ?_, ?_, ?_, ?_, fun _ => rfl, ?_⟩ <;>
      first
        | (intro hb; rcases hb with hx | hx | hx | hx <;> simp at hx)
        | (intro hx; simp at hx)

theorem Inv_waiting (st : GameState) (h : Inv st)
    (hG : st.phase = "GameOver") : Inv (waitingReset st) := by
  obtain ⟨h1, h2, h3, h4, h5, h6, h7, h8, h9, h10, h11⟩ := h
  unfold waitingReset
  refine ⟨by simp, Or.inl rfl, fun _ => h10 hG, ?_, ?_, ?_, ?_, ?_, ?_, ?_,
    ?_⟩ <;>
    first
      | (intro hb; rcases hb with hx | hx | hx | hx <;> simp at hx)
      | (intro hx; simp at hx)

theorem getD_isSome_of_all {l : List (Option Card)} (h5 : l.length = 5)
    (hall : ∀ c ∈ l, c.isSome = true) (i : Nat) (hi : i < 5) :
    (l.getD i none).isSome = true := by
  rw [List.getD_eq_getElem?_getD]
  have hi2 : i < l.length := by omega
  rw [List.getElem?_eq_getElem hi2]
  exact hall _ (List.getElem_mem hi2)

/-- Every Active/AllIn player is a not-folded player. -/
theorem active_le_stillin (l : List PlayerInfo) :
    (l.filter fun p => p.status == "Active" || p.status == "AllIn").length ≤
      (l.filter fun p => p.status != "Folded").length := by
  induction l with
  | nil => exact Nat.le_refl 0
  | cons p t ih =>
    by_cases h1 : (p.status == "Active" || p.status == "AllIn") = true
    · have h2 : (p.status != "Folded") = true := by
        rcases (Bool.or_eq_true _ _).mp h1 with h | h <;>
          · rw [beq_iff_eq] at h
            rw [h]
            rfl
      simp only [List.filter_cons, h1, h2, if_true, List.length_cons]
      omega
    · simp only [Bool.not_eq_true] at h1
      cases h2 : (p.status != "Folded")
      · simp only [List.filter_cons, h1, h2, Bool.false_eq_true, if_false]
        exact ih
      · simp only [List.filter_cons, h1, h2, Bool.false_eq_true, if_false,
          if_true, List.length_cons]
        omega

theorem awardPot_length (u : List PlayerInfo) (w : String) (tp : Int) :
    (awardPot u w tp).length = u.length := by
  unfold awardPot
  simp

theorem normalState_fields (st : GameState) (updated : List PlayerInfo)
    (pI ntb : Int) (ni : Nat) (np : String) (ncc : List (Option Card))
    (rb : Bool) :
    (normalState st updated pI ntb ni np ncc rb).phase = np ∧
    (normalState st updated pI ntb ni np ncc rb).communityCards = ncc ∧
    (normalState st updated pI ntb ni np ncc rb).dealtCards =
      st.dealtCards ∧
    (normalState st updated pI ntb ni np ncc rb).players.length =
      updated.length := by
  refine ⟨rfl, rfl, rfl, ?_⟩
  unfold normalState
  dsimp only
  by_cases h : rb = true
  · rw [if_pos h]
    simp
  · rw [if_neg h]

theorem showdownStateOf_fields (st : GameState) (updated : List PlayerInfo)
    (pI : Int) (ncc : List (Option Card))
    (hands : List (PlayerInfo × List (Option Card) × HandEval)) :
    (showdownStateOf st updated pI ncc hands).phase = "Winner" ∧
    (showdownStateOf st updated pI ncc hands).communityCards = ncc ∧
    (showdownStateOf st updated pI ncc hands).dealtCards = st.dealtCards ∧
    (showdownStateOf st updated pI ncc hands).players.length =
      updated.length := by
  refine ⟨rfl, rfl, rfl, ?_⟩
  unfold showdownStateOf
  dsimp only
  rw [awardPot_length]

/-- The invariant only reads the phase, community cards, deal and seat
count, so it transfers along states agreeing there. -/
theorem Inv_transfer (s q : GameState) (hph : q.phase = s.phase)
    (hcc : q.communityCards = s.communityCards)
    (hdc : q.dealtCards = s.dealtCards)
    (hpl : q.players.length = s.players.length) (h : Inv s) : Inv q := by
  obtain ⟨h1, h2, h3, h4, h5, h6, h7, h8, h9, h10, h11⟩ := h
  refine ⟨by rw [hpl]; exact h1, by rw [hph]; exact h2, ?_, ?_, ?_, ?_, ?_,
    ?_, ?_, ?_, ?_⟩
  · intro hx; rw [hph] at hx; rw [hcc]; exact h3 hx
  · intro hx; rw [hph] at hx; rw [hcc]; exact h4 hx
  · intro hx; rw [hph] at hx; rw [hcc]; exact h5 hx
  · intro hx; rw [hph] at hx; rw [hcc]; exact h6 hx
  · intro hx; rw [hph] at hx; rw [hcc]; exact h7 hx
  · intro hx; rw [hph] at hx; rw [hcc]; exact h8 hx
  · intro hx; rw [hph] at hx; rw [hcc]; exact h9 hx
  · intro hx; rw [hph] at hx; rw [hcc]; exact h10 hx
  · intro hb
    have hbs : bettingPhase s := by
      unfold bettingPhase at hb ⊢
      rw [hph] at hb
      exact hb
    obtain ⟨d, hd, hdd⟩ := h11 hbs
    refine ⟨d, ?_, hdd⟩
    rw [hdc]
    exact hd

theorem roundFinish_inv (st : GameState) (updated : List PlayerInfo)
    (pI ntb : Int) (ni : Nat) (adv : Bool) (np : String)
    (ncc : List (Option Card)) (hInv : Inv st) (hbet : bettingPhase st)
    (hlen : updated.length = st.players.length)
    (hF : adv = false → np = st.phase ∧ ncc = st.communityCards)
    (hT : adv = true →
      (np = "Flop" ∧ ncc.length = 3) ∨ (np = "Turn" ∧ ncc.length = 4) ∨
      (np = "River" ∧ ncc.length = 5) ∨ (np = "Showdown" ∧ ncc.length = 5))
    (hpis : adv = true →
      (updated.filter fun p => p.status != "Folded").length ≠ 0) :
    Inv (roundFinish st updated pI ntb ni adv np ncc).1 := by
  obtain ⟨h1, h2, h3, h4, h5, h6, h7, h8, h9, h10, h11⟩ := hInv
  unfold roundFinish
  cases adv with
  | false =>
    obtain ⟨hnp, hncc⟩ := hF rfl
    rw [if_neg (by simp)]
    obtain ⟨e1, e2, e3, e4⟩ := normalState_fields st updated pI ntb ni np
      ncc false
    exact Inv_transfer st _ (by rw [e1, hnp]) (by rw [e2, hncc]) e3
      (by rw [e4, hlen]) ⟨h1, h2, h3, h4, h5, h6, h7, h8, h9, h10, h11⟩
  | true =>
    rcases hT rfl with ⟨hnp, hl⟩ | ⟨hnp, hl⟩ | ⟨hnp, hl⟩ | ⟨hnp, hl⟩ <;>
      subst hnp
    · rw [if_neg (by decide)]
      obtain ⟨e1, e2, e3, e4⟩ := normalState_fields st updated pI ntb ni
        "Flop" ncc true
      refine ⟨by rw [e4, hlen]; exact h1,
        Or.inr (Or.inr (Or.inl e1)), ?_, ?_, ?_, ?_, ?_, ?_, ?_, ?_, ?_⟩
      · intro hx; rw [e1] at hx; exact absurd hx (by decide)
      · intro hx; rw [e1] at hx; exact absurd hx (by decide)
      · intro _; rw [e2]; exact hl
      · intro hx; rw [e1] at hx; exact absurd hx (by decide)
      · intro hx; rw [e1] at hx; exact absurd hx (by decide)
      · intro hx; rw [e1] at hx; exact absurd hx (by decide)
      · intro hx; rw [e1] at hx; exact absurd hx (by decide)
      · intro hx; rw [e1] at hx; exact absurd hx (by decide)
      · intro _
        obtain ⟨d, hd, hdd⟩ := h11 hbet
        refine ⟨d, ?_, hdd⟩
        rw [e3]
        exact hd
    · rw [if_neg (by decide)]
      obtain ⟨e1, e2, e3, e4⟩ := normalState_fields st updated pI ntb ni
        "Turn" ncc true
      refine ⟨by rw [e4, hlen]; exact h1,
        Or.inr (Or.inr (Or.inr (Or.inl e1))), ?_, ?_, ?_, ?_, ?_, ?_, ?_,
        ?_, ?_⟩
      · intro hx; rw [e1] at hx; exact absurd hx (by decide)
      · intro hx; rw [e1] at hx; exact absurd hx (by decide)
      · intro hx; rw [e1] at hx; exact absurd hx (by decide)
      · intro _; rw [e2]; exact hl
      · intro hx; rw [e1] at hx; exact absurd hx (by decide)
      · intro hx; rw [e1] at hx; exact absurd hx (by decide)
      · intro hx; rw [e1] at hx; exact absurd hx (by decide)
      · intro hx; rw [e1] at hx; exact absurd hx (by decide)
      · intro _
        obtain ⟨d, hd, hdd⟩ := h11 hbet
        refine ⟨d, ?_, hdd⟩
        rw [e3]
        exact hd
    · rw [if_neg (by decide)]
      obtain ⟨e1, e2, e3, e4⟩ := normalState_fields st updated pI ntb ni
        "River" ncc true
      refine ⟨by rw [e4, hlen]; exact h1,
        Or.inr (Or.inr (Or.inr (Or.inr (Or.inl e1)))), ?_, ?_, ?_, ?_, ?_,
        ?_, ?_, ?_, ?_⟩
      · intro hx; rw [e1] at hx; exact absurd hx (by decide)
      · intro hx; rw [e1] at hx; exact absurd hx (by decide)
      · intro hx; rw [e1] at hx; exact absurd hx (by decide)
      · intro hx; rw [e1] at hx; exact absurd hx (by decide)
      · intro _; rw [e2]; exact hl
      · intro hx; rw [e1] at hx; exact absurd hx (by decide)
      · intro hx; rw [e1] at hx; exact absurd hx (by decide)
      · intro hx; rw [e1] at hx; exact absurd hx (by decide)
      · intro _
        obtain ⟨d, hd, hdd⟩ := h11 hbet
        refine ⟨d, ?_, hdd⟩
        rw [e3]
        exact hd
    · rw [if_pos (show (true && ("Showdown" == "Showdown")) = true
        from rfl)]
      dsimp only
      rw [if_pos (hpis rfl)]
      generalize collectHands updated st.dealtCards ncc
        (updated.filter fun p => p.status != "Folded") = ch
      obtain _ | hands := ch
      · exact ⟨h1, h2, h3, h4, h5, h6, h7, h8, h9, h10, h11⟩
      · obtain ⟨e1, e2, e3, e4⟩ := showdownStateOf_fields st updated pI ncc
          hands
        refine ⟨by rw [e4, hlen]; exact h1,
          Or.inr (Or.inr (Or.inr (Or.inr (Or.inr (Or.inl e1))))), ?_, ?_,
          ?_, ?_, ?_, ?_, ?_, ?_, ?_⟩
        · intro hx; rw [e1] at hx; exact absurd hx (by decide)
        · intro hx; rw [e1] at hx; exact absurd hx (by decide)
        · intro hx; rw [e1] at hx; exact absurd hx (by decide)
        · intro hx; rw [e1] at hx; exact absurd hx (by decide)
        · intro hx; rw [e1] at hx; exact absurd hx (by decide)
        · intro _
          rw [e2]
          exact Or.inr (Or.inr (Or.inr hl))
        · intro hx; rw [e1] at hx; exact absurd hx (by decide)
        · intro hx; rw [e1] at hx; exact absurd hx (by decide)
        · intro hb
          unfold bettingPhase at hb
          rw [e1] at hb
          rcases hb with h | h | h | h <;> exact absurd h (by decide)

theorem foldWinState_fields (st : GameState) (updated : List PlayerInfo)
    (pI : Int) (w : PlayerInfo) :
    (foldWinState st updated pI w).phase = "Winner" ∧
    (foldWinState st updated pI w).communityCards = st.communityCards ∧
    (foldWinState st updated pI w).dealtCards = st.dealtCards ∧
    (foldWinState st updated pI w).players.length = updated.length := by
  refine ⟨rfl, rfl, rfl, ?_⟩
  unfold foldWinState
  dsimp only
  rw [awardPot_length]

theorem roundBody_inv (st : GameState) (nm : String) (a : PAction)
    (updated : List PlayerInfo) (pI ntb : Int) (hInv : Inv st)
    (hbet : bettingPhase st) (hlen : updated.length = st.players.length) :
    Inv (roundBody st nm a updated pI ntb).1 := by
  have hc := hInv
  obtain ⟨h1, h2, h3, h4, h5, h6, h7, h8, h9, h10, h11⟩ := hc
  obtain ⟨d, hd, hd5, hdsome⟩ := h11 hbet
  unfold roundBody
  dsimp only
  apply roundFinish_inv st updated pI ntb _ _ _ _ hInv hbet hlen
  · intro h0
    rw [h0]
    exact ⟨rfl, rfl⟩
  · intro h0
    rcases hbet with hp | hp | hp | hp <;> rw [hp] at h0 ⊢ <;> rw [h0]
    · rw [show List.findIdx? (fun ph => ph == "PreFlop") phasesList = some 0
        from rfl]
      dsimp only
      rw [show ((((0 : Nat) : Int)) + 1).toNat = 1 from rfl]
      rw [show phasesList.getD 1 "" = "Flop" from rfl]
      rw [if_pos rfl, if_pos rfl]
      left
      refine ⟨rfl, ?_⟩
      rw [if_pos ⟨rfl, h4 hp⟩, hd]
      dsimp only
      rw [List.length_take, hd5]
      rfl
    · rw [show List.findIdx? (fun ph => ph == "Flop") phasesList = some 1
        from rfl]
      dsimp only
      rw [show ((((1 : Nat) : Int)) + 1).toNat = 2 from rfl]
      rw [show phasesList.getD 2 "" = "Turn" from rfl]
      rw [if_pos rfl, if_pos rfl]
      right
      left
      refine ⟨rfl, ?_⟩
      rw [if_neg (by simp), if_pos ⟨rfl, h5 hp⟩, hd]
      dsimp only
      rcases Option.isSome_iff_exists.mp
        (getD_isSome_of_all hd5 hdsome 3 (by omega)) with ⟨c, hc3⟩
      rw [hc3]
      dsimp only
      rw [List.length_append, h5 hp]
      rfl
    · rw [show List.findIdx? (fun ph => ph == "Turn") phasesList = some 2
        from rfl]
      dsimp only
      rw [show ((((2 : Nat) : Int)) + 1).toNat = 3 from rfl]
      rw [show phasesList.getD 3 "" = "River" from rfl]
      rw [if_pos rfl, if_pos rfl]
      right
      right
      left
      refine ⟨rfl, ?_⟩
      rw [if_neg (by simp), if_neg (by simp), if_pos ⟨rfl, h6 hp⟩, hd]
      dsimp only
      rcases Option.isSome_iff_exists.mp
        (getD_isSome_of_all hd5 hdsome 4 (by omega)) with ⟨c, hc4⟩
      rw [hc4]
      dsimp only
      rw [List.length_append, h6 hp]
      rfl
    · rw [show List.findIdx? (fun ph => ph == "River") phasesList = some 3
        from rfl]
      dsimp only
      rw [show ((((3 : Nat) : Int)) + 1).toNat = 4 from rfl]
      rw [show phasesList.getD 4 "" = "Showdown" from rfl]
      rw [if_pos rfl, if_pos rfl]
      right
      right
      right
      refine ⟨rfl, ?_⟩
      rw [if_neg (by simp), if_neg (by simp), if_neg (by simp)]
      exact h7 hp
  · intro h0
    simp only [Bool.and_eq_true] at h0
    obtain ⟨⟨⟨_, _⟩, hD⟩, _⟩ := h0
    have hL := of_decide_eq_true hD
    have hmono := active_le_stillin updated
    omega

theorem Inv_act (st : GameState) (nm : String) (a0 : PAction)
    (hInv : Inv st) (hbet : bettingPhase st) :
    Inv (performAction st nm a0).1 := by
  unfold performAction
  rcases hf : st.players.find? fun p => p.name == nm with _ | acting
  · rw [hf]
    exact hInv
  · rw [hf]
    dsimp only
    unfold actBody
    dsimp only
    have hnames := processPlayers_names st.currentBet nm
      (coerceAction acting a0) st.players 0 st.currentBet
    generalize hproc : processPlayers st.currentBet nm (coerceAction acting a0)
      st.players 0 st.currentBet = res
    obtain ⟨updated, pI, ntb2⟩ := res
    rw [hproc] at hnames
    dsimp only at hnames
    have hlen : updated.length = st.players.length := by
      have h := congrArg List.length hnames
      simpa using h
    dsimp only
    generalize hsplit : (updated.filter fun p => p.status != "Folded") = psi
    obtain _ | ⟨w, ws⟩ := psi
    · rw [if_neg (by simp)]
      exact roundBody_inv st nm (coerceAction acting a0) updated pI ntb2
        hInv hbet hlen
    · by_cases hl1 : (w :: ws).length = 1
      · rw [if_pos hl1]
        dsimp only
        have hc := hInv
        obtain ⟨h1, h2, h3, h4, h5, h6, h7, h8, h9, h10, h11⟩ := hc
        obtain ⟨e1, e2, e3, e4⟩ := foldWinState_fields st updated pI w
        have hccl : st.communityCards.length = 0 ∨
            st.communityCards.length = 3 ∨ st.communityCards.length = 4 ∨
            st.communityCards.length = 5 := by
          rcases hbet with hp | hp | hp | hp
          · exact Or.inl (h4 hp)
          · exact Or.inr (Or.inl (h5 hp))
          · exact Or.inr (Or.inr (Or.inl (h6 hp)))
          · exact Or.inr (Or.inr (Or.inr (h7 hp)))
        refine ⟨by rw [e4, hlen]; exact h1,
          Or.inr (Or.inr (Or.inr (Or.inr (Or.inr (Or.inl e1))))), ?_, ?_,
          ?_, ?_, ?_, ?_, ?_, ?_, ?_⟩
        · intro hx; rw [e1] at hx; exact absurd hx (by decide)
        · intro hx; rw [e1] at hx; exact absurd hx (by decide)
        · intro hx; rw [e1] at hx; exact absurd hx (by decide)
        · intro hx; rw [e1] at hx; exact absurd hx (by decide)
        · intro hx; rw [e1] at hx; exact absurd hx (by decide)
        · intro _
          rw [e2]
          exact hccl
        · intro hx; rw [e1] at hx; exact absurd hx (by decide)
        · intro hx; rw [e1] at hx; exact absurd hx (by decide)
        · intro hb
          unfold bettingPhase at hb
          rw [e1] at hb
          rcases hb with h | h | h | h <;> exact absurd h (by decide)
      · rw [if_neg hl1]
        exact roundBody_inv st nm (coerceAction acting a0) updated pI ntb2
          hInv hbet hlen

/-- One server-side transition of the table: a join, a StartGame, a
PlayerAction arriving in a betting phase, or one of the two timed
post-hand transitions. -/
inductive Step : GameState → GameState → Prop where
  | join (st : GameState) (nm addr : String) (chips : Int) :
      Step st (joinApply st nm addr chips)
  | start (st : GameState) : Step st (startGameFn st)
  | act (st : GameState) (nm : String) (a : PAction)
      (h : bettingPhase st) : Step st (performAction st nm a).1
  | winnerTimeout (st : GameState) (h : st.phase = "Winner") :
      Step st (postWinnerStep st)
  | gameOverTimeout (st : GameState) (h : st.phase = "GameOver") :
      Step st (waitingReset st)

/-- States reachable from the fresh table. -/
inductive Reachable (tid : String) : GameState → Prop where
  | init : Reachable tid (initialState tid)
  | step {s t : GameState} : Reachable tid s → Step s t → Reachable tid t

theorem Reachable_inv (tid : String) (s : GameState)
    (h : Reachable tid s) : Inv s := by
  induction h with
  | init => exact Inv_init tid
  | step hr hs ih =>
    cases hs with
    | join nm addr chips => exact Inv_join _ nm addr chips ih
    | start => exact Inv_start _ ih
    | act nm a hb => exact Inv_act _ nm a ih hb
    | winnerTimeout hw => exact Inv_postWinner _ ih
    | gameOverTimeout hg => exact Inv_waiting _ ih hg

/-- C8 (amended): in every reachable state the community-card count is
pinned by the phase for Waiting/PreFlop (0), Flop (3), Turn (4) and
River (5); a Winner state carries whichever board was on the table when
the hand ended (0, 3, 4 or 5 cards — a pre-river fold-win keeps the
partial board, only a showdown guarantees 5), and the Showdown phase is
never an observable state. -/
theorem cc_length_by_phase (tid : String) (s : GameState)
    (h : Reachable tid s) :
    (s.phase = "Waiting" → s.communityCards.length = 0) ∧
    (s.phase = "PreFlop" → s.communityCards.length = 0) ∧
    (s.phase = "Flop" → s.communityCards.length = 3) ∧
    (s.phase = "Turn" → s.communityCards.length = 4) ∧
    (s.phase = "River" → s.communityCards.length = 5) ∧
    (s.phase = "Winner" → s.communityCards.length = 0 ∨
      s.communityCards.length = 3 ∨ s.communityCards.length = 4 ∨
      s.communityCards.length = 5) ∧
    s.phase ≠ "Showdown" := by
  obtain ⟨_, h2, h3, h4, h5, h6, h7, h8, _, _, _⟩ := Reachable_inv tid s h
  refine ⟨h3, h4, h5, h6, h7, h8, ?_⟩
  rcases h2 with h | h | h | h | h | h | h | h <;> rw [h] <;> decide

theorem cc_length_by_phase_witness :
    Reachable "w" (initialState "w") ∧
    (((initialState "w").phase = "Waiting" →
        (initialState "w").communityCards.length = 0) ∧
      ((initialState "w").phase = "PreFlop" →
        (initialState "w").communityCards.length = 0) ∧
      ((initialState "w").phase = "Flop" →
        (initialState "w").communityCards.length = 3) ∧
      ((initialState "w").phase = "Turn" →
        (initialState "w").communityCards.length = 4) ∧
      ((initialState "w").phase = "River" →
        (initialState "w").communityCards.length = 5) ∧
      ((initialState "w").phase = "Winner" →
        (initialState "w").communityCards.length = 0 ∨
        (initialState "w").communityCards.length = 3 ∨
        (initialState "w").communityCards.length = 4 ∨
        (initialState "w").communityCards.length = 5) ∧
      (initialState "w").phase ≠ "Showdown") :=
  ⟨Reachable.init, cc_length_by_phase "w" (initialState "w") Reachable.init⟩

/-- C8 (counterexample): the fold-won heads-up hand is reachable through
joins, StartGame and two PlayerActions, its phase is Winner, yet no
community card was ever dealt: the claim's "exactly 5 in Winner" fails. -/
theorem winner_phase_cc_not_five :
    Reachable "t" headsUpFolded ∧ headsUpFolded.phase = "Winner" ∧
    headsUpFolded.communityCards.length ≠ 5 := by
  constructor
  · have r0 : Reachable "t" (initialState "t") := Reachable.init
    have r1 : Reachable "t" (joinApply (initialState "t") "A" "A" 1000) :=
      Reachable.step r0 (Step.join _ "A" "A" 1000)
    have r2 : Reachable "t" headsUpJoined :=
      Reachable.step r1 (Step.join _ "B" "B" 1000)
    have r3 : Reachable "t" headsUpStarted :=
      Reachable.step r2 (Step.start _)
    have r4 : Reachable "t" headsUpRaised :=
      Reachable.step r3 (Step.act _ "B" (PAction.raise 100) (Or.inl rfl))
    exact Reachable.step r4 (Step.act _ "A" PAction.fold (Or.inl rfl))
  · refine ⟨rfl, ?_⟩
    have hl : headsUpFolded.communityCards.length = 0 := rfl
    omega

end RoyalePoker
